import Mathlib

/-!
# Reality Firewall — AMAF detection core: shallow embedding and verification

This file embeds the numeric core of the AMAF (Adaptive Media Authenticity
Framework) detection pipeline from `src/lib/detection/` — the scoring engine,
confidence manager, change detector, audio/video metric routines, the
radix-2 FFT of the image detector, and the pipeline orchestrator — and proves
the stated properties of the specification against it.

Modelling conventions:
* JavaScript `number` values are modelled as exact real numbers `ℝ`
  (exact arithmetic is the idealisation the spec's "within floating-point
  tolerance" clauses refer to); purely integral/rational sub-computations
  (pixel bytes, sums of absolute differences) are modelled as `ℚ`/`ℤ`/`ℕ`
  where the source only ever produces such values, keeping them decidable.
* `x | null` fields become `Option ℝ`.
* A JavaScript division `0 / 0` produces `NaN`; where a metric can actually
  take that path (the spectral-flatness mean over zero frames) the value is
  modelled as `Option ℝ` with `none` standing for `NaN`.
* In-place array mutation becomes functional update; `for` loops become
  folds over the same index ranges.
* Free-text fields (signal `name`/`description`, escalation `reason`) carry
  no logic and are omitted from the embedded records.
-/

namespace RealityFirewall

/-! ## Scoring engine (`src/lib/detection/scoring-engine.ts`) -/

/-- Baseline statistics per feature slot (`FeatureBaseline`). -/
structure FeatureBaseline where
  mean : ℝ
  std : ℝ
  weight : ℝ
  higherIsSuspicious : Bool

/-- The 8 named feature slots of `AMAFFeatureVector`. -/
inductive FeatureKey
  | hfer | svd | pdi | tiis | fav | etk | pvss | frd
deriving DecidableEq, Repr

/-- The key order of `Object.keys(FEATURE_BASELINES)` — the declaration order
of the literal in the source. -/
def featureKeys : List FeatureKey :=
  [.hfer, .svd, .pdi, .tiis, .fav, .etk, .pvss, .frd]

/-- `FEATURE_BASELINES` from the source. -/
def FEATURE_BASELINES : FeatureKey → FeatureBaseline
  | .hfer => ⟨0.25, 0.08, 0.18, false⟩
  | .svd  => ⟨0.15, 0.12, 0.12, true⟩
  | .pdi  => ⟨0.008, 0.005, 0.14, true⟩
  | .tiis => ⟨0.02, 0.015, 0.16, true⟩
  | .fav  => ⟨0.2, 0.15, 0.10, true⟩
  | .etk  => ⟨3.0, 2.0, 0.10, true⟩
  | .pvss => ⟨50, 30, 0.10, false⟩
  | .frd  => ⟨0.15, 0.1, 0.10, true⟩

/-- `AMAFFeatureVector`: each slot is a number or `null` (not yet computed). -/
structure AMAFFeatureVector where
  hfer : Option ℝ
  svd : Option ℝ
  pdi : Option ℝ
  tiis : Option ℝ
  fav : Option ℝ
  etk : Option ℝ
  pvss : Option ℝ
  frd : Option ℝ

/-- Slot access `vector[key]`. -/
def AMAFFeatureVector.get (v : AMAFFeatureVector) : FeatureKey → Option ℝ
  | .hfer => v.hfer
  | .svd => v.svd
  | .pdi => v.pdi
  | .tiis => v.tiis
  | .fav => v.fav
  | .etk => v.etk
  | .pvss => v.pvss
  | .frd => v.frd

/-- `normalizeFeature`: one-sided z-score anomaly contribution. -/
noncomputable def normalizeFeature (key : FeatureKey) (value : ℝ) : ℝ :=
  let baseline := FEATURE_BASELINES key
  let zScore := (value - baseline.mean) / max baseline.std (1e-6)
  if baseline.higherIsSuspicious then max 0 zScore else max 0 (-zScore)

/-- The loop body of `computeEnsembleScore`: accumulate
`(weightedSum, totalWeight)` over the populated slots. -/
noncomputable def ensembleStep (v : AMAFFeatureVector) (acc : ℝ × ℝ)
    (key : FeatureKey) : ℝ × ℝ :=
  match v.get key with
  | none => acc
  | some value =>
      let baseline := FEATURE_BASELINES key
      (acc.1 + normalizeFeature key value * baseline.weight,
       acc.2 + baseline.weight)

/-- The `(weightedSum, totalWeight)` pair accumulated by the loop in
`computeEnsembleScore`. -/
noncomputable def ensembleSums (v : AMAFFeatureVector) : ℝ × ℝ :=
  featureKeys.foldl (ensembleStep v) (0, 0)

/-- `computeEnsembleScore`: weight-normalized ensemble anomaly score. -/
noncomputable def computeEnsembleScore (v : AMAFFeatureVector) : ℝ :=
  let s := ensembleSums v
  if s.2 > 0 then s.1 / s.2 else 0

/-- `plattScale`: logistic calibration `1 / (1 + exp(-(A*s + B)))`. -/
noncomputable def plattScale (rawScore : ℝ) (A : ℝ := 2.5) (B : ℝ := -1.0) : ℝ :=
  1 / (1 + Real.exp (-(A * rawScore + B)))

/-- Risk tiers of `classifyRisk`. -/
inductive RiskLevel
  | low | suspicious | harmful | high_risk
deriving DecidableEq, Repr

/-- `classifyRisk`: fixed probability ladder plus integer percentage
(`Math.round(p * 100)`; JavaScript `Math.round x = ⌊x + 1/2⌋` which is
exactly Mathlib's `round`). -/
noncomputable def classifyRisk (probability : ℝ) : RiskLevel × ℤ :=
  let riskScore := round (probability * 100)
  let riskLevel : RiskLevel :=
    if probability ≥ 0.8 then .high_risk
    else if probability ≥ 0.55 then .harmful
    else if probability ≥ 0.3 then .suspicious
    else .low
  (riskLevel, riskScore)

/-- Ordinal rank of a risk tier (lowest to highest), used to state
monotonicity of the ladder. -/
def riskRank : RiskLevel → ℕ
  | .low => 0
  | .suspicious => 1
  | .harmful => 2
  | .high_risk => 3

/-! Spec-side reformulations for the ensemble-score claim: the
weight-normalized sum over only the populated slots. -/

/-- Spec wording: the per-slot weighted anomaly contribution (0 for an
absent slot). -/
noncomputable def slotContribution (v : AMAFFeatureVector) (k : FeatureKey) : ℝ :=
  match v.get k with
  | none => 0
  | some value => normalizeFeature k value * (FEATURE_BASELINES k).weight

/-- Spec wording: sum of contributions over the populated slots. -/
noncomputable def specWeightedSum (v : AMAFFeatureVector) : ℝ :=
  (featureKeys.map (slotContribution v)).sum

/-- Spec wording: total weight over only the populated slots (weights of
absent slots excluded). -/
noncomputable def specPopulatedWeight (v : AMAFFeatureVector) : ℝ :=
  ((featureKeys.filter (fun k => (v.get k).isSome)).map
    (fun k => (FEATURE_BASELINES k).weight)).sum

/-! ## Change detector (`src/lib/detection/change-detector.ts`) -/

/-- `SegmentAuthenticity`. The JavaScript `number` index is modelled as `ℤ`. -/
structure SegmentAuthenticity where
  segmentIndex : ℤ
  startTime : ℝ
  endTime : ℝ
  authenticityScore : ℝ
  flagged : Bool

/-- Change-point direction. -/
inductive Direction
  | increase | decrease
deriving DecidableEq, Repr

/-- `ChangePoint`. -/
structure ChangePoint where
  timestamp : ℝ
  segmentIndex : ℤ
  cusumValue : ℝ
  direction : Direction

/-- One iteration of the CUSUM loop of `detectChangePoints`. State is
`(cusumUpper, cusumLower, changePoints)`; the input is the `(index, segment)`
pair. The source's `alreadyFlagged` set can only take effect within a single
iteration (the loop index strictly increases), so it reduces to skipping the
lower-CUSUM check when the upper-CUSUM check just fired at the same index. -/
noncomputable def cusumStep (mean allowance threshold : ℝ)
    (st : ℝ × ℝ × List ChangePoint) (p : ℕ × SegmentAuthenticity) :
    ℝ × ℝ × List ChangePoint :=
  let upper1 := max 0 (st.1 + (mean - p.2.authenticityScore - allowance))
  let lower1 := max 0 (st.2.1 + (p.2.authenticityScore - mean - allowance))
  if upper1 > threshold then
    (0, lower1,
      st.2.2 ++ [⟨p.2.startTime, (p.1 : ℤ), upper1, .increase⟩])
  else if lower1 > threshold then
    (upper1, 0,
      st.2.2 ++ [⟨p.2.startTime, (p.1 : ℤ), lower1, .decrease⟩])
  else
    (upper1, lower1, st.2.2)

/-- `detectChangePoints`: CUSUM change-point detection over the authenticity
scores of a segment list. -/
noncomputable def detectChangePoints (segments : List SegmentAuthenticity)
    (allowance : ℝ := 0.1) (threshold : ℝ := 0.5) : List ChangePoint :=
  if segments.length < 3 then []
  else
    let scores := segments.map (·.authenticityScore)
    let mean := scores.sum / scores.length
    (segments.enum.foldl (cusumStep mean allowance threshold) (0, 0, [])).2.2

/-- Effect of a single change point in `enrichSegmentsWithChangePoints`:
segments whose index lies in the clamped window `[segmentIndex - radius,
segmentIndex + radius]` and are not yet flagged are flagged when the change
point's direction is `increase`. -/
def enrichApplyCP (radiusSegments : ℕ) (segs : List SegmentAuthenticity)
    (cp : ChangePoint) : List SegmentAuthenticity :=
  let start : ℤ := max 0 (cp.segmentIndex - radiusSegments)
  let stop : ℤ := min ((segs.length : ℤ) - 1) (cp.segmentIndex + radiusSegments)
  segs.enum.map (fun p =>
    if cp.direction = .increase ∧ p.2.flagged = false ∧
        start ≤ (p.1 : ℤ) ∧ (p.1 : ℤ) ≤ stop
    then { p.2 with flagged := true } else p.2)

/-- `enrichSegmentsWithChangePoints` (the initial per-segment shallow copy of
the source is the identity in a functional embedding). -/
def enrichSegmentsWithChangePoints (segments : List SegmentAuthenticity)
    (changePoints : List ChangePoint) (radiusSegments : ℕ := 1) :
    List SegmentAuthenticity :=
  changePoints.foldl (enrichApplyCP radiusSegments) segments

/-! ## Confidence manager (`src/lib/detection/confidence-manager.ts`) -/

/-- The three analysis levels. -/
inductive AnalysisLevel
  | level1_lightweight | level2_deep_spatial | level3_temporal_crossmodal
deriving DecidableEq, Repr

/-- `EscalationDecision` (the free-text `reason` field is omitted). -/
structure EscalationDecision where
  shouldEscalate : Bool
  nextLevel : Option AnalysisLevel
  earlyExit : Bool
deriving DecidableEq, Repr

/-- `evaluateEscalation`. The `Math.random() < 0.2` draw is passed in as the
boolean `randomEscalate` (the spec itself demands the random source be
injectable); `rawScore` is accepted and unused exactly as in the source. -/
noncomputable def evaluateEscalation (currentLevel : AnalysisLevel) (rawScore : ℝ)
    (fakeProbability : ℝ) (vector : AMAFFeatureVector)
    (stableFrameCount : ℕ := 0) (randomEscalate : Bool := false) :
    EscalationDecision :=
  if (fakeProbability > 0.95 ∨ fakeProbability < 0.05) ∧ stableFrameCount ≥ 3 then
    { shouldEscalate := false, nextLevel := none, earlyExit := true }
  else
    let isAmbiguous := fakeProbability ≥ 0.25 ∧ fakeProbability ≤ 0.75
    if currentLevel = .level1_lightweight ∧ (isAmbiguous ∨ randomEscalate = true) then
      { shouldEscalate := true, nextLevel := some .level2_deep_spatial,
        earlyExit := false }
    else if currentLevel = .level2_deep_spatial ∧ (isAmbiguous ∨ randomEscalate = true) then
      { shouldEscalate := true, nextLevel := some .level3_temporal_crossmodal,
        earlyExit := false }
    else
      { shouldEscalate := false, nextLevel := none, earlyExit := false }

/-- `determineStartLevel`. -/
noncomputable def determineStartLevel (mediaType : String) (fileSize : ℝ) : AnalysisLevel :=
  if mediaType = "image" ∧ fileSize < 500000 then .level2_deep_spatial
  else if mediaType = "video" ∧ fileSize > 20000000 then .level1_lightweight
  else if mediaType = "audio" then .level2_deep_spatial
  else .level1_lightweight

/-! ## Spectral core (`src/lib/detection/image-detector.ts`, `fft1d`)

The in-place iterative radix-2 Cooley-Tukey transform. The two parallel
`Float64Array`s `real`/`imag` are modelled as one array of complex numbers
`ℕ → ℂ` (out-of-range indices are never read for a length-`2^m` input);
exact complex arithmetic is the idealisation of the float computation. -/

/-- Reversal of the low `m` bits of a number. -/
def bitrev : ℕ → ℕ → ℕ
  | 0, _ => 0
  | m + 1, i => i % 2 * 2 ^ m + bitrev m (i / 2)

/-- The inner `while (j & bit) { j ^= bit; bit >>= 1; } j ^= bit;` loop of
the bit-reversal permutation: increment of a bit-reversed counter. -/
def revInc (j bit : ℕ) : ℕ :=
  if h : j &&& bit ≠ 0 then revInc (j ^^^ bit) (bit / 2) else j ^^^ bit
termination_by bit
decreasing_by
  exact Nat.div_lt_self
    (Nat.pos_of_ne_zero (fun hb => h (by simp [hb]))) one_lt_two

/-- Exchange of two array cells. -/
def swapF (a : ℕ → ℂ) (i j : ℕ) : ℕ → ℂ := fun k =>
  if k = i then a j else if k = j then a i else a k

/-- One iteration of the bit-reversal permutation loop: advance the
reversed counter, then swap when `i < j`. -/
def bitrevStep (n : ℕ) (st : ℕ × (ℕ → ℂ)) (i : ℕ) : ℕ × (ℕ → ℂ) :=
  let j := revInc st.1 (n / 2)
  (j, if i < j then swapF st.2 i j else st.2)

/-- The bit-reversal permutation loop of `fft1d`
(`for (let i = 1; i < n; i++) ...`). -/
def bitrevPermute (n : ℕ) (a : ℕ → ℂ) : ℕ → ℂ :=
  ((List.range' 1 (n - 1)).foldl (bitrevStep n) (0, a)).2

/-- The twiddle factor of a butterfly pass of length `len`:
`cos(-2π/len) + i sin(-2π/len) = exp(-2πi/len)`. -/
noncomputable def fftW (len : ℕ) : ℂ :=
  Complex.exp (-(2 * Real.pi) * Complex.I / len)

/-- One butterfly pass of `fft1d` with half-length `L` (`len = 2L`). Within
a pass each index pair `{i+k, i+k+L}` is read and written in isolation, so
the in-place pass is a pointwise update; the source's running `cur *= w`
equals `w^k` in exact arithmetic. -/
noncomputable def stageUpdate (L : ℕ) (a : ℕ → ℂ) : ℕ → ℂ := fun idx =>
  let r := idx % (2 * L)
  if r < L then a idx + fftW (2 * L) ^ r * a (idx + L)
  else a (idx - L) - fftW (2 * L) ^ (r - L) * a idx

/-- The `for (let len = 2; len <= n; len <<= 1)` stage loop of `fft1d`. -/
noncomputable def fftPasses : ℕ → (ℕ → ℂ) → ℕ → ℂ
  | 0, a => a
  | s + 1, a => stageUpdate (2 ^ s) (fftPasses s a)

/-- `fft1d` on an input of length `2^m`: bit-reversal permutation followed
by the `m` butterfly passes. -/
noncomputable def fft1d (m : ℕ) (a : ℕ → ℂ) : ℕ → ℂ :=
  fftPasses m (bitrevPermute (2 ^ m) a)

/-- The discrete Fourier transform with the same sign convention as the
source (`angle = -2π/len`). -/
noncomputable def dft (N : ℕ) (x : ℕ → ℂ) (k : ℕ) : ℂ :=
  ∑ t ∈ Finset.range N, x t * fftW N ^ (k * t)

/-- Modelled from the spec: the repository contains no inverse transform;
the round-trip law of §8 ("the 1D transform followed by its inverse
reproduces the original sequence") refers to the standard inverse discrete
Fourier transform `x[t] = (1/N) Σ_k X[k] exp(+2πi k t / N)`. -/
noncomputable def invDft (N : ℕ) (X : ℕ → ℂ) (t : ℕ) : ℂ :=
  (∑ k ∈ Finset.range N,
    X k * Complex.exp (2 * Real.pi * Complex.I * k * t / N)) / N

/-! ## Detection signals (`src/lib/detection/types.ts`) -/

/-- Signal categories of `DetectionSignalOutput`. -/
inductive SignalCategory
  | visual | temporal | spectral | semantic | metadata
deriving DecidableEq, Repr

/-- `DetectionSignalOutput`. Severity tiers coincide with the risk tiers.
The free-text `name`/`description` fields carry no logic and are omitted. -/
structure DetectionSignalOutput where
  id : String
  category : SignalCategory
  confidence : ℝ
  severity : RiskLevel
  metricValue : Option ℝ := none

/-! ## Audio detector (`src/lib/detection/audio-detector.ts`) -/

/-- `hanningWindow`. -/
noncomputable def hanningWindow (size : ℕ) (i : ℕ) : ℝ :=
  0.5 * (1 - Real.cos ((2 * Real.pi * i) / ((size : ℝ) - 1)))

/-- The frame start offsets of the STFT loop
`for (start = 0; start + frameSize <= n; start += hopSize)`. -/
def frameStarts (n frameSize hopSize : ℕ) : List ℕ :=
  let numFrames := if frameSize ≤ n then (n - frameSize) / hopSize + 1 else 0
  (List.range numFrames).map (· * hopSize)

/-- One STFT frame of `computeSTFT`: Hann-windowed direct DFT magnitudes of
the first half of the bins, with the stride-2 subsampling (compensated by
the scale factor `step`) for frames wider than 512 samples. -/
noncomputable def stftFrame (samples : List ℝ) (frameSize start : ℕ) : List ℝ :=
  let windowed : ℕ → ℝ := fun i => samples.getD (start + i) 0 * hanningWindow frameSize i
  let step : ℕ := if frameSize > 512 then 2 else 1
  let idxs := (List.range ((frameSize + step - 1) / step)).map (· * step)
  (List.range (frameSize / 2)).map (fun k =>
    let sumRe := (idxs.map (fun n =>
      windowed n * Real.cos ((2 * Real.pi * k * n) / frameSize))).sum
    let sumIm := -(idxs.map (fun n =>
      windowed n * Real.sin ((2 * Real.pi * k * n) / frameSize))).sum
    Real.sqrt (sumRe * sumRe + sumIm * sumIm) * step)

/-- `computeSTFT`. -/
noncomputable def computeSTFT (samples : List ℝ) (frameSize : ℕ := 1024)
    (hopSize : ℕ := 512) : List (List ℝ) :=
  (frameStarts samples.length frameSize hopSize).map (stftFrame samples frameSize)

/-- `frameEnergy`. -/
noncomputable def frameEnergy (spectrum : List ℝ) : ℝ :=
  (spectrum.map (fun x => x * x)).sum

/-- `kurtosis`: excess kurtosis, defined as 0 for fewer than 4 values or
near-zero variance. -/
noncomputable def kurtosis (values : List ℝ) : ℝ :=
  if values.length < 4 then 0
  else
    let n : ℝ := values.length
    let mean := values.sum / n
    let variance := (values.map (fun x => (x - mean) ^ 2)).sum / n
    if variance < 1e-10 then 0
    else
      let m4 := (values.map (fun x => (x - mean) ^ 4)).sum / n
      m4 / (variance * variance) - 3

/-- First difference of a sequence (`ΔE(t) = E(t) - E(t-1)`). -/
noncomputable def firstDiff (l : List ℝ) : List ℝ :=
  (l.zip l.tail).map (fun p => p.2 - p.1)

/-- Second discrete derivative (`v[i] - 2 v[i-1] + v[i-2]`). -/
noncomputable def secondDiff (l : List ℝ) : List ℝ :=
  ((l.zip l.tail).zip l.tail.tail).map (fun p => p.2 - 2 * p.1.2 + p.1.1)

/-- Mean-centered variance `Σ (x - mean)² / n` as written inline in the
source; used only where the source guarantees a non-empty list. -/
noncomputable def sampleVariance (l : List ℝ) : ℝ :=
  let mean := l.sum / l.length
  (l.map (fun x => (x - mean) ^ 2)).sum / l.length

/-- `EnergyTransitionMetrics`. -/
structure EnergyTransitionMetrics where
  etk : ℝ
  energyDeltas : List ℝ

/-- `computeEnergyTransition` (ETK). -/
noncomputable def computeEnergyTransition (samples : List ℝ)
    (frameSize : ℕ := 1024) : EnergyTransitionMetrics :=
  let spectra := computeSTFT samples frameSize (frameSize / 2)
  let energies := spectra.map frameEnergy
  let deltas := firstDiff energies
  ⟨|kurtosis deltas|, deltas⟩

/-- `PitchMetrics`. -/
structure PitchMetrics where
  pvss : ℝ
  pitchContour : List ℝ

/-- The per-frame normalized-autocorrelation search of `computePitchMetrics`:
best `(correlation, lag)` over the lag range, with the stride-2 inner sums. -/
noncomputable def autocorrFrame (samples : List ℝ)
    (frameSize start minPeriod maxPeriod : ℕ) : ℝ × ℕ :=
  (List.range' minPeriod (min maxPeriod (frameSize / 2) - minPeriod)).foldl
    (fun best lag =>
      let len := frameSize - lag
      let idxs := (List.range ((len + 1) / 2)).map (· * 2)
      let corr := (idxs.map (fun i =>
        samples.getD (start + i) 0 * samples.getD (start + i + lag) 0)).sum
      let norm1 := (idxs.map (fun i =>
        samples.getD (start + i) 0 * samples.getD (start + i) 0)).sum
      let norm2 := (idxs.map (fun i =>
        samples.getD (start + i + lag) 0 * samples.getD (start + i + lag) 0)).sum
      let normFactor := Real.sqrt (norm1 * norm2)
      let normalized := if normFactor > 0 then corr / normFactor else 0
      if normalized > best.1 then (normalized, lag) else best)
    (-1, 0)

/-- `computePitchMetrics` (PVSS). -/
noncomputable def computePitchMetrics (samples : List ℝ)
    (sampleRate : ℝ := 44100) (frameSize : ℕ := 2048) : PitchMetrics :=
  let hopSize := frameSize / 2
  let minPeriod := (⌊sampleRate / 500⌋).toNat
  let maxPeriod := (⌊sampleRate / 60⌋).toNat
  let pitchContour := (frameStarts samples.length frameSize hopSize).map
    (fun start =>
      let best := autocorrFrame samples frameSize start minPeriod maxPeriod
      if best.1 > 0.3 ∧ best.2 > 0 then sampleRate / (best.2 : ℝ) else 0)
  let validPitch := pitchContour.filter (fun p => p > 0)
  if validPitch.length < 4 then ⟨0, pitchContour⟩
  else ⟨sampleVariance (secondDiff validPitch), pitchContour⟩

/-- `SpectralFlatnessMetrics`. JavaScript produces `NaN` for the mean
flatness over zero frames (`0 / 0`); `frd = none` models that `NaN`. -/
structure SpectralFlatnessMetrics where
  frd : Option ℝ
  flatnessValues : List ℝ

/-- Per-frame flatness (geometric mean over arithmetic mean of the
magnitudes from bin 1 on, floored at `1e-10`). -/
noncomputable def spectrumFlatness (spectrum : List ℝ) : ℝ :=
  let vals := (spectrum.drop 1).map (fun v => max v 1e-10)
  let logSum := (vals.map Real.log).sum
  let arithmeticSum := vals.sum
  if vals.length = 0 ∨ arithmeticSum < 1e-10 then 0
  else Real.exp (logSum / vals.length) / (arithmeticSum / vals.length)

/-- `computeSpectralFlatness` (FRD). -/
noncomputable def computeSpectralFlatness (samples : List ℝ)
    (frameSize : ℕ := 1024) : SpectralFlatnessMetrics :=
  let spectra := computeSTFT samples frameSize (frameSize / 2)
  let flatnessValues := spectra.map spectrumFlatness
  let meanFlatness : Option ℝ :=
    if flatnessValues.length = 0 then none
    else some (flatnessValues.sum / flatnessValues.length)
  ⟨meanFlatness.map (fun m => |m - 0.1| / 0.1), flatnessValues⟩

/-- The signal-generation logic of `analyzeAudio` (thresholds from the
source; an `frd` of `NaN` fails the `> 0.5` comparison and so generates no
signal). -/
noncomputable def audioSignals (energyTransition : EnergyTransitionMetrics)
    (pitch : PitchMetrics) (spectralFlatness : SpectralFlatnessMetrics) :
    List DetectionSignalOutput :=
  (if energyTransition.etk > 5 then
    [⟨"audio-etk-high", .spectral, min 0.85 (0.4 + energyTransition.etk * 0.05),
      if energyTransition.etk > 15 then .high_risk else .suspicious,
      some energyTransition.etk⟩]
   else [])
  ++ (if pitch.pvss < 5 ∧ (pitch.pitchContour.filter (fun p => p > 0)).length > 10 then
    [⟨"audio-pvss-smooth", .spectral, min 0.8 (0.5 + (5 - pitch.pvss) * 0.05),
      if pitch.pvss < 1 then .harmful else .suspicious, some pitch.pvss⟩]
   else [])
  ++ (match spectralFlatness.frd with
      | none => []
      | some frd =>
          if frd > 0.5 then
            [⟨"audio-frd-anomaly", .spectral, min 0.75 (0.3 + frd * 0.3),
              if frd > 1.0 then .harmful else .suspicious, some frd⟩]
          else [])

/-! ## Video detector (`src/lib/detection/video-detector.ts`) -/

/-- `ImageData`: RGBA byte grid. -/
structure ImageData where
  width : ℕ
  height : ℕ
  data : List ℕ

/-- `toGrayscale`: luminance conversion. Pixel bytes are integers and the
luminance weights are exact decimal fractions, so the grayscale values are
exact rationals; reads beyond the pixel buffer (which cannot occur for
uniform-dimension frame sequences) default to 0. -/
def toGrayscale (frame : ImageData) : ℕ → ℚ := fun i =>
  0.299 * (frame.data.getD (i * 4) 0 : ℚ) +
    0.587 * (frame.data.getD (i * 4 + 1) 0 : ℚ) +
    0.114 * (frame.data.getD (i * 4 + 2) 0 : ℚ)

/-- The search offsets `(dy, dx)` of the block-matching loop, in iteration
order (`dy` outer, `dx` inner, each from `-searchRange` to `searchRange`). -/
def candidateOffsets (searchRange : ℕ) : List (ℤ × ℤ) :=
  let offs := (List.range (2 * searchRange + 1)).map
    (fun a => (a : ℤ) - searchRange)
  offs.bind (fun dy => offs.map (fun dx => (dy, dx)))

/-- Sum of absolute differences between the current block at `(bx, by2)` and
the previous-frame block at `(px, py)`. -/
def blockSAD (prev curr : ℕ → ℚ) (w bs bx by2 px py : ℕ) : ℚ :=
  ((List.range bs).map (fun y =>
    ((List.range bs).map (fun x =>
      |curr ((by2 + y) * w + (bx + x)) - prev ((py + y) * w + (px + x))|)).sum)).sum

/-- One step of the block-matching search loop: skip out-of-bounds
candidates, otherwise keep the strictly smallest SAD (`none` in the first
state component models the initial `bestDist = Infinity`). -/
def matchStep (prev curr : ℕ → ℚ) (w h bs bx by2 : ℕ)
    (st : Option ℚ × ℤ × ℤ) (p : ℤ × ℤ) : Option ℚ × ℤ × ℤ :=
  let py := (by2 : ℤ) + p.1
  let px := (bx : ℤ) + p.2
  if py < 0 ∨ py + bs > h ∨ px < 0 ∨ px + bs > w then st
  else
    let sad := blockSAD prev curr w bs bx by2 px.toNat py.toNat
    match st.1 with
    | none => (some sad, p.2, p.1)
    | some d => if sad < d then (some sad, p.2, p.1) else st

/-- The best-match displacement `(bestDx, bestDy)` for one block. -/
def bestBlockMatch (prev curr : ℕ → ℚ) (w h bs bx by2 : ℕ) : ℤ × ℤ :=
  ((candidateOffsets 4).foldl (matchStep prev curr w h bs bx by2)
    ((none : Option ℚ), 0, 0)).2

/-- Decidable in-bounds test matching the skip guard of `matchStep`. -/
def offsetValid (w h bs bx by2 : ℕ) (p : ℤ × ℤ) : Bool :=
  !(decide ((by2 : ℤ) + p.1 < 0 ∨ (by2 : ℤ) + p.1 + bs > h ∨
    (bx : ℤ) + p.2 < 0 ∨ (bx : ℤ) + p.2 + bs > w))

/-- The best-match vectors of all blocks of one frame pair (`by` outer,
`bx` inner, stepping by the block size). -/
def blockVectors (prevF currF : ImageData) (blockSize : ℕ) : List (ℤ × ℤ) :=
  let prev := toGrayscale prevF
  let curr := toGrayscale currF
  let w := currF.width
  let h := currF.height
  ((List.range (h / blockSize)).bind (fun ky =>
    (List.range (w / blockSize)).map (fun kx =>
      (ky * blockSize, kx * blockSize)))).map
    (fun b => bestBlockMatch prev curr w h blockSize b.2 b.1)

/-- Per-transition flow magnitude: average match-vector magnitude over all
blocks of the frame pair. -/
noncomputable def frameFlow (prevF currF : ImageData) (blockSize : ℕ) : ℝ :=
  let vectors := blockVectors prevF currF blockSize
  if vectors.length > 0 then
    ((vectors.map (fun v =>
      Real.sqrt ((v.2 * v.2 + v.1 * v.1 : ℤ) : ℝ))).sum) / vectors.length
  else 0

/-- `OpticalFlowMetrics`. -/
structure OpticalFlowMetrics where
  fav : ℝ
  flowMagnitudes : List ℝ

/-- `computeOpticalFlow` (FAV): block-matching optical flow; the
acceleration sequence is the sequence of absolute differences of
consecutive flow magnitudes, and `fav` is its variance. -/
noncomputable def computeOpticalFlow (frames : List ImageData)
    (blockSize : ℕ := 16) : OpticalFlowMetrics :=
  if frames.length < 3 then ⟨0, []⟩
  else
    let flowMagnitudes := (frames.zip frames.tail).map
      (fun p => frameFlow p.1 p.2 blockSize)
    let accelerations := (flowMagnitudes.zip flowMagnitudes.tail).map
      (fun p => |p.2 - p.1|)
    if accelerations.length = 0 then ⟨0, flowMagnitudes⟩
    else ⟨sampleVariance accelerations, flowMagnitudes⟩

/-- A concrete 4×2 test frame (R = G = B per pixel, so the luminance equals
the stated byte value): grayscale rows `10 20 30 40` and `50 60 70 80`. -/
def cexFrameA : ImageData :=
  ⟨4, 2, [10,10,10,255, 20,20,20,255, 30,30,30,255, 40,40,40,255,
          50,50,50,255, 60,60,60,255, 70,70,70,255, 80,80,80,255]⟩

/-- `cexFrameA` with its left and right halves swapped: grayscale rows
`30 40 10 20` and `70 80 50 60`, so block matching against `cexFrameA`
finds exact matches at displacements `(±2, 0)`. -/
def cexFrameB : ImageData :=
  ⟨4, 2, [30,30,30,255, 40,40,40,255, 10,10,10,255, 20,20,20,255,
          70,70,70,255, 80,80,80,255, 50,50,50,255, 60,60,60,255]⟩

/-! ## Image detector signal generation (`src/lib/detection/image-detector.ts`)

The pipeline claims quantify over every feature value, so the numeric metric
extraction (2D spectrum energies, patch histograms, byte-level metadata
scanning) enters the pipeline embedding as parameters — the metric records
and the three metadata booleans an `analyzeImage` call would produce — while
the signal-generation logic and all thresholds are embedded from the
source. -/

/-- `FrequencyMetrics`. -/
structure FrequencyMetrics where
  hfer : ℝ
  svd : ℝ

/-- `TextureMetrics`. -/
structure TextureMetrics where
  pdi : ℝ
  patchScores : List ℝ
  gridSize : ℕ

/-- `TemporalIdentityMetrics`. -/
structure TemporalIdentityMetrics where
  tiis : ℝ
  frameDrifts : List ℝ

/-- The metadata signals of `analyzeImageMetadata`, generated from the three
byte-level heuristics results. -/
noncomputable def metadataSignals (exifPresent hasBeenEdited
    compressionAnomalies : Bool) : List DetectionSignalOutput :=
  (if exifPresent = false then
    [⟨"meta-exif-stripped", .metadata, 0.65, .suspicious, none⟩] else [])
  ++ (if hasBeenEdited = true then
    [⟨"meta-edited", .metadata, 0.7, .suspicious, none⟩] else [])
  ++ (if compressionAnomalies = true then
    [⟨"meta-recompression", .metadata, 0.55, .low, none⟩] else [])

/-- The signal list built by `analyzeImage` from the metadata signals and the
frequency/texture metrics. -/
noncomputable def analyzeImageSignals (frequency : FrequencyMetrics)
    (texture : Option TextureMetrics)
    (metaSigs : List DetectionSignalOutput) : List DetectionSignalOutput :=
  metaSigs
  ++ (if frequency.hfer < 0.15 then
    [⟨"freq-hfer-low", .visual, min 0.95 (0.6 + (0.15 - frequency.hfer) * 3),
      if frequency.hfer < 0.08 then .high_risk else .harmful,
      some frequency.hfer⟩] else [])
  ++ (if frequency.svd > 0.5 then
    [⟨"freq-svd-high", .visual, min 0.9 (0.5 + frequency.svd * 0.3),
      if frequency.svd > 1.0 then .high_risk else .suspicious,
      some frequency.svd⟩] else [])
  ++ (match texture with
      | some t =>
          if t.pdi > 0.02 then
            [⟨"tex-pdi-high", .visual, min 0.85 (0.5 + t.pdi * 10),
              if t.pdi > 0.05 then .harmful else .suspicious, some t.pdi⟩]
          else []
      | none => [])

/-- Result record of `analyzeImage`. -/
structure ImageAnalysis where
  frequency : FrequencyMetrics
  texture : Option TextureMetrics
  signals : List DetectionSignalOutput

/-- `analyzeImage`: the full image detection suite over the metric values
the extractors would produce (texture only when enabled). -/
noncomputable def analyzeImage (frequency : FrequencyMetrics)
    (textureMetrics : TextureMetrics)
    (exifPresent hasBeenEdited compressionAnomalies : Bool)
    (enableTexture : Bool := true) : ImageAnalysis :=
  let texture := if enableTexture then some textureMetrics else none
  let metaSigs := metadataSignals exifPresent hasBeenEdited compressionAnomalies
  ⟨frequency, texture, analyzeImageSignals frequency texture metaSigs⟩

/-- `analyzeImageFromBuffer` fallback when no decoded pixel data is
available: fixed neutral frequency metrics and metadata-only signals. -/
noncomputable def analyzeImageFromBuffer
    (exifPresent hasBeenEdited compressionAnomalies : Bool) : ImageAnalysis :=
  let metaSigs := metadataSignals exifPresent hasBeenEdited compressionAnomalies
  ⟨⟨0.5, 0⟩, none, metaSigs⟩

/-- Result record of `analyzeVideo`. -/
structure VideoAnalysis where
  frequency : Option FrequencyMetrics
  texture : Option TextureMetrics
  temporalIdentity : TemporalIdentityMetrics
  opticalFlow : Option OpticalFlowMetrics
  segments : List SegmentAuthenticity
  signals : List DetectionSignalOutput

/-- `analyzeVideo`: the full video detection suite over the metric values
the extractors would produce; frequency/texture need a non-empty frame list,
optical flow additionally needs it enabled and at least 3 frames. -/
noncomputable def analyzeVideo (frameCount : ℕ)
    (frequencyEnv : FrequencyMetrics) (textureEnv : TextureMetrics)
    (temporalIdentity : TemporalIdentityMetrics)
    (opticalFlowEnv : OpticalFlowMetrics)
    (segments : List SegmentAuthenticity)
    (enableTexture : Bool := true) (enableOpticalFlow : Bool := false) :
    VideoAnalysis :=
  let frequency := if frameCount > 0 then some frequencyEnv else none
  let texture := if frameCount > 0 ∧ enableTexture = true then
    some textureEnv else none
  let opticalFlow := if enableOpticalFlow = true ∧ frameCount ≥ 3 then
    some opticalFlowEnv else none
  let freqSigs := if frameCount > 0 then
    (if frequencyEnv.hfer < 0.15 then
      [⟨"vid-freq-anomaly", .visual,
        min 0.9 (0.5 + (0.15 - frequencyEnv.hfer) * 4),
        if frequencyEnv.hfer < 0.08 then .high_risk else .harmful,
        some frequencyEnv.hfer⟩]
     else []) else []
  let tiisSigs := if temporalIdentity.tiis > 0.05 then
    [⟨"vid-tiis-high", .temporal, min 0.9 (0.4 + temporalIdentity.tiis * 5),
      if temporalIdentity.tiis > 0.1 then .high_risk else .suspicious,
      some temporalIdentity.tiis⟩] else []
  let flowSigs := if enableOpticalFlow = true ∧ frameCount ≥ 3 then
    (if opticalFlowEnv.fav > 0.5 then
      [⟨"vid-fav-high", .temporal, min 0.85 (0.3 + opticalFlowEnv.fav * 0.5),
        if opticalFlowEnv.fav > 1.5 then .harmful else .suspicious,
        some opticalFlowEnv.fav⟩]
     else []) else []
  let flaggedCount := (segments.filter (·.flagged)).length
  let segSigs := if flaggedCount > 0 then
    [⟨"vid-segment-flags", .temporal,
      min 0.8 (0.4 + ((flaggedCount : ℝ) / (segments.length : ℝ)) * 0.5),
      if (flaggedCount : ℝ) > (segments.length : ℝ) / 2 then .harmful
      else .suspicious, none⟩] else []
  ⟨frequency, texture, temporalIdentity, opticalFlow, segments,
    freqSigs ++ tiisSigs ++ flowSigs ++ segSigs⟩

/-- Result record of `analyzeAudio`. -/
structure AudioAnalysis where
  energyTransition : EnergyTransitionMetrics
  pitch : PitchMetrics
  spectralFlatness : SpectralFlatnessMetrics
  signals : List DetectionSignalOutput

/-- `analyzeAudio`: the full audio detection suite. -/
noncomputable def analyzeAudio (samples : List ℝ) (sampleRate : ℝ := 44100) :
    AudioAnalysis :=
  let energyTransition := computeEnergyTransition samples
  let pitch := computePitchMetrics samples sampleRate
  let spectralFlatness := computeSpectralFlatness samples
  ⟨energyTransition, pitch, spectralFlatness,
    audioSignals energyTransition pitch spectralFlatness⟩

/-! ## Pipeline orchestrator (`src/lib/detection/pipeline.ts`) -/

/-- Detected media types of the routing layer. -/
inductive MediaType
  | image | video | audio | unknown
deriving DecidableEq, Repr

/-- The string a `MediaType` value carries in the source. -/
def MediaType.str : MediaType → String
  | .image => "image"
  | .video => "video"
  | .audio => "audio"
  | .unknown => "unknown"

/-- The routing decision the pipeline receives: media kind, file size, and
the decoded payload (`frameCount` is 0 exactly when `route.frames` is absent
or empty; the three booleans are the byte-level metadata heuristics the
image detector would extract from the raw buffer). -/
structure MediaRoute where
  mediaType : MediaType
  fileSize : ℝ
  hasImageData : Bool
  frameCount : ℕ
  audioBuffer : Option (List ℝ)
  exifPresent : Bool
  hasBeenEdited : Bool
  compressionAnomalies : Bool

/-- Per-run environment: the numeric metric values the image/video
extractors produce on this input (identical across levels, since the
extractors are deterministic over the same decoded data), the two
`Math.random() < 0.2` draws, and the real standing in for a `NaN`
spectral-flatness slot (no claim depends on its value). -/
structure PipelineEnv where
  imageFrequency : FrequencyMetrics
  imageTexture : TextureMetrics
  videoFrequency : FrequencyMetrics
  videoTexture : TextureMetrics
  videoTemporalIdentity : TemporalIdentityMetrics
  videoOpticalFlow : OpticalFlowMetrics
  videoSegments : List SegmentAuthenticity
  rand1 : Bool
  rand2 : Bool
  nanFrd : ℝ

/-- Signal merge used at the deeper levels: append only signals whose
identifier is not already present (the source's `existingIds` set always
equals the identifier set of the running list). -/
def mergeSignals (existing incoming : List DetectionSignalOutput) :
    List DetectionSignalOutput :=
  incoming.foldl
    (fun acc sig => if sig.id ∈ acc.map (·.id) then acc else acc ++ [sig])
    existing

/-- Result of one `scoreFeatureVector` pass (the explanation text carries no
logic and is omitted). -/
structure ScoreResult where
  rawScore : ℝ
  fakeProbability : ℝ
  riskLevel : RiskLevel
  riskScore : ℤ

/-- `scoreFeatureVector`. -/
noncomputable def scoreFeatureVector (vector : AMAFFeatureVector) :
    ScoreResult :=
  let rawScore := computeEnsembleScore vector
  let fakeProbability := plattScale rawScore
  let rl := classifyRisk fakeProbability
  ⟨rawScore, fakeProbability, rl.1, rl.2⟩

/-- Mutable run state of `runPipeline` between levels. -/
structure PipeState where
  featureVector : AMAFFeatureVector
  signals : List DetectionSignalOutput
  segments : List SegmentAuthenticity
  tiisSet : Bool
  currentLevel : AnalysisLevel
  earlyExit : Bool

/-- Level-1 image block of `runPipeline`: lightweight frequency metrics
(no texture) or, without decoded pixels, the buffer-only fallback. -/
noncomputable def l1ImageStep (route : MediaRoute) (env : PipelineEnv)
    (st : PipeState) : PipeState :=
  if route.mediaType = .image then
    let imgResult :=
      if route.hasImageData then
        analyzeImage env.imageFrequency env.imageTexture route.exifPresent
          route.hasBeenEdited route.compressionAnomalies false
      else
        analyzeImageFromBuffer route.exifPresent route.hasBeenEdited
          route.compressionAnomalies
    { st with
      featureVector := { st.featureVector with
        hfer := some imgResult.frequency.hfer,
        svd := some imgResult.frequency.svd },
      signals := st.signals ++ imgResult.signals }
  else st

/-- Level-1 video block of `runPipeline`. -/
noncomputable def l1VideoStep (route : MediaRoute) (env : PipelineEnv)
    (st : PipeState) : PipeState :=
  if route.mediaType = .video ∧ route.frameCount > 0 then
    let vidResult := analyzeVideo route.frameCount env.videoFrequency
      env.videoTexture env.videoTemporalIdentity env.videoOpticalFlow
      env.videoSegments false false
    let fv := (match vidResult.frequency with
      | some f => { st.featureVector with
          hfer := some f.hfer, svd := some f.svd }
      | none => st.featureVector)
    { st with
      featureVector := { fv with
        tiis := some vidResult.temporalIdentity.tiis },
      tiisSet := true,
      segments := vidResult.segments,
      signals := st.signals ++ vidResult.signals }
  else st

/-- Level-1 audio block of `runPipeline`: just the energy-transition
kurtosis, no signals. -/
noncomputable def l1AudioStep (route : MediaRoute) (st : PipeState) :
    PipeState :=
  if route.mediaType = .audio ∧ route.audioBuffer.isSome then
    { st with featureVector := { st.featureVector with
        etk := some (computeEnergyTransition (route.audioBuffer.getD [])).etk } }
  else st

/-- Level-1 escalation check of `runPipeline`, with the stability-counter
argument omitted by the caller and hence defaulted to 0. -/
noncomputable def l1Escalation (env : PipelineEnv) (st : PipeState) :
    PipeState :=
  let scoring := scoreFeatureVector st.featureVector
  let escalation := evaluateEscalation .level1_lightweight scoring.rawScore
    scoring.fakeProbability st.featureVector 0 env.rand1
  if escalation.earlyExit then
    { st with earlyExit := true, currentLevel := .level1_lightweight }
  else if escalation.shouldEscalate ∧
      st.currentLevel = .level1_lightweight then
    { st with currentLevel := .level2_deep_spatial }
  else st

/-- Level 1 of `runPipeline` (the source's guard on this block covers all
three levels, so it always runs). -/
noncomputable def pipelineLevel1 (route : MediaRoute) (env : PipelineEnv) :
    PipeState :=
  let st0 : PipeState :=
    ⟨⟨none, none, none, none, none, none, none, none⟩, [], [], false,
      determineStartLevel route.mediaType.str route.fileSize, false⟩
  l1Escalation env (l1AudioStep route
    (l1VideoStep route env (l1ImageStep route env st0)))

/-- Level-2 image block of `runPipeline`: texture enabled, signals merged
without duplicate identifiers. -/
noncomputable def l2ImageStep (route : MediaRoute) (env : PipelineEnv)
    (st : PipeState) : PipeState :=
  if route.mediaType = .image ∧ route.hasImageData = true then
    let imgResult := analyzeImage env.imageFrequency env.imageTexture
      route.exifPresent route.hasBeenEdited route.compressionAnomalies true
    let fv := (match imgResult.texture with
      | some t => { st.featureVector with pdi := some t.pdi }
      | none => st.featureVector)
    { st with
      featureVector := fv,
      signals := mergeSignals st.signals imgResult.signals }
  else st

/-- Level-2 video block of `runPipeline`: texture enabled, identity metrics
filled only if a shallower level has not already set them, signals merged
without duplicate identifiers. -/
noncomputable def l2VideoStep (route : MediaRoute) (env : PipelineEnv)
    (st : PipeState) : PipeState :=
  if route.mediaType = .video ∧ route.frameCount > 0 then
    let vidResult := analyzeVideo route.frameCount env.videoFrequency
      env.videoTexture env.videoTemporalIdentity env.videoOpticalFlow
      env.videoSegments true false
    let fv1 := (match vidResult.texture with
      | some t => { st.featureVector with pdi := some t.pdi }
      | none => st.featureVector)
    let fv2 := if st.tiisSet = false then
        { fv1 with tiis := some vidResult.temporalIdentity.tiis }
      else fv1
    { st with
      featureVector := fv2,
      tiisSet := true,
      segments := vidResult.segments,
      signals := mergeSignals st.signals vidResult.signals }
  else st

/-- Level-2 audio block of `runPipeline`: guarded only by the presence of
an audio buffer, and appending its signals without an identifier check. -/
noncomputable def l2AudioStep (route : MediaRoute) (env : PipelineEnv)
    (st : PipeState) : PipeState :=
  if route.audioBuffer.isSome then
    let audioResult := analyzeAudio (route.audioBuffer.getD [])
    { st with
      featureVector := { st.featureVector with
        etk := some audioResult.energyTransition.etk,
        pvss := some audioResult.pitch.pvss,
        frd := some (audioResult.spectralFlatness.frd.getD env.nanFrd) },
      signals := st.signals ++ audioResult.signals }
  else st

/-- Level-2 escalation check of `runPipeline`, again with the defaulted
stability counter of 0. -/
noncomputable def l2Escalation (env : PipelineEnv) (st : PipeState) :
    PipeState :=
  let scoring := scoreFeatureVector st.featureVector
  let escalation := evaluateEscalation .level2_deep_spatial scoring.rawScore
    scoring.fakeProbability st.featureVector 0 env.rand2
  if escalation.earlyExit then { st with earlyExit := true }
  else if escalation.shouldEscalate then
    { st with currentLevel := .level3_temporal_crossmodal }
  else st

/-- Level 2 of `runPipeline`: runs unless an early exit happened or the
current level stayed at Level 1. -/
noncomputable def pipelineLevel2 (route : MediaRoute) (env : PipelineEnv)
    (st : PipeState) : PipeState :=
  if st.earlyExit = false ∧ (st.currentLevel = .level2_deep_spatial ∨
      st.currentLevel = .level3_temporal_crossmodal) then
    l2Escalation env (l2AudioStep route env
      (l2VideoStep route env (l2ImageStep route env st)))
  else st

/-- Level-3 video block of `runPipeline`: optical flow enabled, signals
merged without duplicate identifiers. -/
noncomputable def l3VideoStep (route : MediaRoute) (env : PipelineEnv)
    (st : PipeState) : PipeState :=
  if route.mediaType = .video ∧ route.frameCount ≥ 3 then
    let vidResult := analyzeVideo route.frameCount env.videoFrequency
      env.videoTexture env.videoTemporalIdentity env.videoOpticalFlow
      env.videoSegments true true
    let fv := (match vidResult.opticalFlow with
      | some fl => { st.featureVector with fav := some fl.fav }
      | none => st.featureVector)
    { st with
      featureVector := fv,
      segments := vidResult.segments,
      signals := mergeSignals st.signals vidResult.signals }
  else st

/-- CUSUM stage of `runPipeline`: change detection on at least 3 segments,
enrichment, and the synthesized partial-manipulation signal. -/
noncomputable def l3Cusum (st : PipeState) : PipeState × List ChangePoint :=
  if st.segments.length ≥ 3 then
    let changePoints := detectChangePoints st.segments
    if changePoints.length > 0 then
      ({ st with
          segments := enrichSegmentsWithChangePoints st.segments changePoints,
          signals := st.signals ++
            [⟨"cusum-changepoints", .temporal,
              min 0.9 (0.5 + (changePoints.length : ℝ) * 0.15),
              if changePoints.length > 2 then .high_risk else .harmful,
              none⟩] },
        changePoints)
    else (st, changePoints)
  else (st, [])

/-- Level 3 of `runPipeline`. -/
noncomputable def pipelineLevel3 (route : MediaRoute) (env : PipelineEnv)
    (st : PipeState) : PipeState × List ChangePoint :=
  if st.earlyExit = false ∧ st.currentLevel = .level3_temporal_crossmodal then
    l3Cusum (l3VideoStep route env st)
  else (st, [])

/-- `AMAFAnalysisResult` (the per-module metric echo fields, the explanation
text and the elapsed-time field carry no logic and are omitted). -/
structure AMAFAnalysisResult where
  featureVector : AMAFFeatureVector
  fakeProbability : ℝ
  calibratedProbability : ℝ
  riskLevel : RiskLevel
  riskScore : ℤ
  analysisLevel : AnalysisLevel
  earlyExit : Bool
  segments : List SegmentAuthenticity
  changePoints : List ChangePoint
  signals : List DetectionSignalOutput

/-- `runPipeline`: levels 1 → 2 → 3 followed by the final scoring pass. -/
noncomputable def runPipeline (route : MediaRoute) (env : PipelineEnv) :
    AMAFAnalysisResult :=
  let st1 := pipelineLevel1 route env
  let st2 := pipelineLevel2 route env st1
  let p3 := pipelineLevel3 route env st2
  let st3 := p3.1
  let scoring := scoreFeatureVector st3.featureVector
  ⟨st3.featureVector, scoring.fakeProbability, scoring.fakeProbability,
    scoring.riskLevel, scoring.riskScore, st3.currentLevel, st3.earlyExit,
    st3.segments, p3.2, st3.signals⟩

/-- The identifier universe of the image and video detectors. -/
def imageVideoIds : List String :=
  ["meta-exif-stripped", "meta-edited", "meta-recompression",
   "freq-hfer-low", "freq-svd-high", "tex-pdi-high",
   "vid-freq-anomaly", "vid-tiis-high", "vid-fav-high", "vid-segment-flags"]

/-- The identifier universe of the audio detector. -/
def audioIds : List String :=
  ["audio-etk-high", "audio-pvss-smooth", "audio-frd-anomaly"]

/-- Signal lists with pairwise-distinct identifiers drawn from a given
universe. -/
def SignalSet (u : List String) (l : List DetectionSignalOutput) : Prop :=
  (l.map (·.id)).Nodup ∧ (l.map (·.id)) ⊆ u

end RealityFirewall

namespace RealityFirewall

/-! ## Theorems: scoring engine and confidence manager -/

/-- The loop of `computeEnsembleScore` accumulates the two sums. -/
theorem ensembleStep_foldl (v : AMAFFeatureVector) (l : List FeatureKey)
    (a : ℝ × ℝ) :
    l.foldl (ensembleStep v) a =
      (a.1 + (l.map (slotContribution v)).sum,
       a.2 + (l.map (fun k => match v.get k with
          | none => (0 : ℝ)
          | some _ => (FEATURE_BASELINES k).weight)).sum) := by
  induction l generalizing a with
  | nil => simp
  | cons k l ih =>
      rw [List.foldl_cons, ih]
      rcases h : v.get k with _ | value <;>
        simp [ensembleStep, slotContribution, h] <;> ring_nf <;>
        constructor <;> ring

/-- The weight accumulated by the loop is the populated-slots weight. -/
theorem weight_foldl_eq_filter (v : AMAFFeatureVector) (l : List FeatureKey) :
    (l.map (fun k => match v.get k with
        | none => (0 : ℝ)
        | some _ => (FEATURE_BASELINES k).weight)).sum =
      ((l.filter (fun k => (v.get k).isSome)).map
        (fun k => (FEATURE_BASELINES k).weight)).sum := by
  induction l with
  | nil => simp
  | cons k l ih =>
      rcases h : v.get k with _ | value <;>
        simp [h, List.filter_cons, ih]

theorem ensembleSums_eq (v : AMAFFeatureVector) :
    ensembleSums v = (specWeightedSum v, specPopulatedWeight v) := by
  rw [ensembleSums, ensembleStep_foldl, weight_foldl_eq_filter]
  simp [specWeightedSum, specPopulatedWeight]

theorem normalizeFeature_nonneg (k : FeatureKey) (x : ℝ) :
    0 ≤ normalizeFeature k x := by
  rw [normalizeFeature]
  split <;> exact le_max_left 0 _

theorem baseline_weight_nonneg (k : FeatureKey) :
    0 ≤ (FEATURE_BASELINES k).weight := by
  cases k <;> norm_num [FEATURE_BASELINES]

theorem slotContribution_nonneg (v : AMAFFeatureVector) (k : FeatureKey) :
    0 ≤ slotContribution v k := by
  rw [slotContribution]
  rcases v.get k with _ | x
  · exact le_refl 0
  · exact mul_nonneg (normalizeFeature_nonneg k x) (baseline_weight_nonneg k)

/-- C1. `computeEnsembleScore` is the weight-normalized sum of per-slot
anomaly contributions over only the populated slots (absent slots excluded
from numerator and denominator); with all 8 slots populated the output is
non-negative and the weight used is the sum of all 8 baseline weights; with
zero slots populated the score is 0 and the calibrated probability is the
Platt transform of 0, namely `1 / (1 + exp 1)`. -/
theorem computeEnsembleScore_spec (v : AMAFFeatureVector) :
    (computeEnsembleScore v =
      if 0 < specPopulatedWeight v then specWeightedSum v / specPopulatedWeight v
      else 0)
    ∧ ((∀ k ∈ featureKeys, (v.get k).isSome) →
        0 ≤ computeEnsembleScore v ∧
        specPopulatedWeight v =
          ((featureKeys.map (fun k => (FEATURE_BASELINES k).weight)).sum))
    ∧ ((∀ k ∈ featureKeys, v.get k = none) →
        computeEnsembleScore v = 0 ∧
        plattScale 0 = 1 / (1 + Real.exp 1)) := by
  have hmain : computeEnsembleScore v =
      if 0 < specPopulatedWeight v then specWeightedSum v / specPopulatedWeight v
      else 0 := by
    rw [computeEnsembleScore, ensembleSums_eq]
  refine ⟨hmain, ?_, ?_⟩
  · intro hall
    have hfilter : featureKeys.filter (fun k => (v.get k).isSome) = featureKeys :=
      List.filter_eq_self.mpr (by intro k hk; simpa using hall k hk)
    have hw : specPopulatedWeight v =
        (featureKeys.map (fun k => (FEATURE_BASELINES k).weight)).sum := by
      rw [specPopulatedWeight, hfilter]
    refine ⟨?_, hw⟩
    rw [hmain]
    split
    · exact div_nonneg
        (List.sum_nonneg (by
          intro x hx
          obtain ⟨k, _, rfl⟩ := List.mem_map.mp hx
          exact slotContribution_nonneg v k)) (le_of_lt (by assumption))
    · exact le_refl 0
  · intro hnone
    have hfilter : featureKeys.filter (fun k => (v.get k).isSome) = [] := by
      apply List.filter_eq_nil_iff.mpr
      intro k hk
      simp [hnone k hk]
    have hw : specPopulatedWeight v = 0 := by
      rw [specPopulatedWeight, hfilter]; simp
    constructor
    · rw [hmain, hw]; simp
    · rw [plattScale]
      norm_num

/-- Witness for C1 at concrete inputs: a fully-populated vector and the
all-null vector. -/
theorem computeEnsembleScore_spec_witness :
    (0 ≤ computeEnsembleScore
        ⟨some 0.25, some 0.15, some 0.008, some 0.02, some 0.2, some 3,
         some 50, some 0.15⟩ ∧
      specPopulatedWeight
        ⟨some 0.25, some 0.15, some 0.008, some 0.02, some 0.2, some 3,
         some 50, some 0.15⟩ =
        ((featureKeys.map (fun k => (FEATURE_BASELINES k).weight)).sum))
    ∧ (computeEnsembleScore ⟨none, none, none, none, none, none, none, none⟩ = 0 ∧
        plattScale 0 = 1 / (1 + Real.exp 1)) := by
  constructor
  · exact (computeEnsembleScore_spec _).2.1 (by
      intro k hk
      fin_cases hk <;> simp [AMAFFeatureVector.get])
  · exact (computeEnsembleScore_spec _).2.2 (by
      intro k hk
      fin_cases hk <;> simp [AMAFFeatureVector.get])

/-- C2. `classifyRisk` follows the fixed probability ladder with boundary
values mapping to the higher tier, the tier is monotone non-decreasing in
the probability, and the risk score is the probability rounded to an
integer percentage. -/
theorem classifyRisk_ladder (p : ℝ) :
    (0.8 ≤ p → (classifyRisk p).1 = .high_risk)
    ∧ (0.55 ≤ p ∧ p < 0.8 → (classifyRisk p).1 = .harmful)
    ∧ (0.3 ≤ p ∧ p < 0.55 → (classifyRisk p).1 = .suspicious)
    ∧ (p < 0.3 → (classifyRisk p).1 = .low)
    ∧ (∀ q : ℝ, p ≤ q → riskRank (classifyRisk p).1 ≤ riskRank (classifyRisk q).1)
    ∧ (classifyRisk p).2 = round (p * 100) := by
  refine ⟨?_, ?_, ?_, ?_, ?_, rfl⟩
  · intro h
    simp only [classifyRisk]
    rw [if_pos (by linarith)]
  · rintro ⟨h1, h2⟩
    simp only [classifyRisk]
    rw [if_neg (by simp; linarith), if_pos (by linarith)]
  · rintro ⟨h1, h2⟩
    simp only [classifyRisk]
    rw [if_neg (by simp; linarith), if_neg (by simp; linarith),
      if_pos (by linarith)]
  · intro h
    simp only [classifyRisk]
    rw [if_neg (by simp; linarith), if_neg (by simp; linarith),
      if_neg (by simp; linarith)]
  · intro q hpq
    simp only [classifyRisk]
    split_ifs <;> simp [riskRank] <;> linarith

/-- Witness for C2 at the boundary inputs 0.8, 0.55, 0.3 and below. -/
theorem classifyRisk_ladder_witness :
    (classifyRisk 0.8).1 = .high_risk ∧ (classifyRisk 0.55).1 = .harmful ∧
      (classifyRisk 0.3).1 = .suspicious ∧ (classifyRisk 0.25).1 = .low ∧
      riskRank (classifyRisk 0.25).1 ≤ riskRank (classifyRisk 0.8).1 := by
  refine ⟨(classifyRisk_ladder 0.8).1 (by norm_num),
    (classifyRisk_ladder 0.55).2.1 (by norm_num),
    (classifyRisk_ladder 0.3).2.2.1 (by norm_num),
    (classifyRisk_ladder 0.25).2.2.2.1 (by norm_num),
    (classifyRisk_ladder 0.25).2.2.2.2.1 0.8 (by norm_num)⟩

/-- C5. With calibrated probability above 0.95 or below 0.05 and a stability
counter of at least 3, `evaluateEscalation` reports no escalation and an
early exit, regardless of the current level and of the randomized draw. -/
theorem evaluateEscalation_early_exit (currentLevel : AnalysisLevel)
    (rawScore p : ℝ) (v : AMAFFeatureVector) (s : ℕ) (r : Bool)
    (hp : p > 0.95 ∨ p < 0.05) (hs : 3 ≤ s) :
    (evaluateEscalation currentLevel rawScore p v s r).shouldEscalate = false ∧
      (evaluateEscalation currentLevel rawScore p v s r).earlyExit = true := by
  rw [evaluateEscalation, if_pos ⟨hp, hs⟩]
  exact ⟨rfl, rfl⟩

/-- A fold whose step ignores elements failing a test equals the fold over
the filtered list. -/
theorem foldl_skip_filter {α β : Type} (step : β → α → β) (valid : α → Bool)
    (hskip : ∀ s a, valid a = false → step s a = s) :
    ∀ (l : List α) (st : β), l.foldl step st = (l.filter valid).foldl step st := by
  intro l
  induction l with
  | nil => intro st; rfl
  | cons a l ih =>
      intro st
      by_cases h : valid a
      · rw [List.foldl_cons, List.filter_cons_of_pos h, List.foldl_cons, ih]
      · rw [List.foldl_cons, hskip st a (by simpa using h),
          List.filter_cons_of_neg (by simpa using h), ih]

/-- `matchStep` ignores out-of-bounds candidate offsets. -/
theorem matchStep_skip (prev curr : ℕ → ℚ) (w h bs bx by2 : ℕ) :
    ∀ s p, offsetValid w h bs bx by2 p = false →
      matchStep prev curr w h bs bx by2 s p = s := by
  intro s p hp
  rw [offsetValid, Bool.not_eq_false', decide_eq_true_iff] at hp
  rw [matchStep]
  simp only [if_pos hp]

/-- The valid candidate offsets for a left block (`bx = 0`) of a 4×2 frame
with block size 2. -/
theorem filt_bx0 : (candidateOffsets 4).filter (offsetValid 4 2 2 0 0) =
    [(0, 0), (0, 1), (0, 2)] := by decide

/-- The valid candidate offsets for a right block (`bx = 2`) of a 4×2 frame
with block size 2. -/
theorem filt_bx2 : (candidateOffsets 4).filter (offsetValid 4 2 2 2 0) =
    [(0, -2), (0, -1), (0, 0)] := by decide

theorem gval_A0 : toGrayscale cexFrameA 0 = 10 := by
  norm_num [toGrayscale, cexFrameA, List.getD]

theorem gval_A1 : toGrayscale cexFrameA 1 = 20 := by
  norm_num [toGrayscale, cexFrameA, List.getD]

theorem gval_A2 : toGrayscale cexFrameA 2 = 30 := by
  norm_num [toGrayscale, cexFrameA, List.getD]

theorem gval_A3 : toGrayscale cexFrameA 3 = 40 := by
  norm_num [toGrayscale, cexFrameA, List.getD]

theorem gval_A4 : toGrayscale cexFrameA 4 = 50 := by
  norm_num [toGrayscale, cexFrameA, List.getD]

theorem gval_A5 : toGrayscale cexFrameA 5 = 60 := by
  norm_num [toGrayscale, cexFrameA, List.getD]

theorem gval_A6 : toGrayscale cexFrameA 6 = 70 := by
  norm_num [toGrayscale, cexFrameA, List.getD]

theorem gval_A7 : toGrayscale cexFrameA 7 = 80 := by
  norm_num [toGrayscale, cexFrameA, List.getD]

theorem gval_B0 : toGrayscale cexFrameB 0 = 30 := by
  norm_num [toGrayscale, cexFrameB, List.getD]

theorem gval_B1 : toGrayscale cexFrameB 1 = 40 := by
  norm_num [toGrayscale, cexFrameB, List.getD]

theorem gval_B2 : toGrayscale cexFrameB 2 = 10 := by
  norm_num [toGrayscale, cexFrameB, List.getD]

theorem gval_B3 : toGrayscale cexFrameB 3 = 20 := by
  norm_num [toGrayscale, cexFrameB, List.getD]

theorem gval_B4 : toGrayscale cexFrameB 4 = 70 := by
  norm_num [toGrayscale, cexFrameB, List.getD]

theorem gval_B5 : toGrayscale cexFrameB 5 = 80 := by
  norm_num [toGrayscale, cexFrameB, List.getD]

theorem gval_B6 : toGrayscale cexFrameB 6 = 50 := by
  norm_num [toGrayscale, cexFrameB, List.getD]

theorem gval_B7 : toGrayscale cexFrameB 7 = 60 := by
  norm_num [toGrayscale, cexFrameB, List.getD]

/-- A sum of absolute differences is non-negative. -/
theorem blockSAD_nonneg (prev curr : ℕ → ℚ) (w bs bx by2 px py : ℕ) :
    0 ≤ blockSAD prev curr w bs bx by2 px py := by
  rw [blockSAD]
  apply List.sum_nonneg
  intro a ha
  obtain ⟨y, hy, rfl⟩ := List.mem_map.mp ha
  apply List.sum_nonneg
  intro b hb
  obtain ⟨x, hx, rfl⟩ := List.mem_map.mp hb
  exact abs_nonneg _

/-- `matchStep` on an in-bounds candidate from the initial state records the
candidate and its SAD. -/
theorem matchStep_none {prev curr : ℕ → ℚ} {w h bs bx by2 : ℕ} {j k : ℤ}
    {p : ℤ × ℤ} {s : ℚ}
    (hv : ¬((by2 : ℤ) + p.1 < 0 ∨ (by2 : ℤ) + p.1 + bs > h ∨
      (bx : ℤ) + p.2 < 0 ∨ (bx : ℤ) + p.2 + bs > w))
    (hsad : blockSAD prev curr w bs bx by2 ((bx : ℤ) + p.2).toNat
      ((by2 : ℤ) + p.1).toNat = s) :
    matchStep prev curr w h bs bx by2 ((none : Option ℚ), j, k) p
      = (some s, p.2, p.1) := by
  simp only [matchStep]
  rw [if_neg hv, ← hsad]

/-- `matchStep` on an in-bounds candidate with a strictly smaller SAD
replaces the current best. -/
theorem matchStep_lt {prev curr : ℕ → ℚ} {w h bs bx by2 : ℕ} {d : ℚ}
    {j k : ℤ} {p : ℤ × ℤ} {s : ℚ}
    (hv : ¬((by2 : ℤ) + p.1 < 0 ∨ (by2 : ℤ) + p.1 + bs > h ∨
      (bx : ℤ) + p.2 < 0 ∨ (bx : ℤ) + p.2 + bs > w))
    (hsad : blockSAD prev curr w bs bx by2 ((bx : ℤ) + p.2).toNat
      ((by2 : ℤ) + p.1).toNat = s)
    (hlt : s < d) :
    matchStep prev curr w h bs bx by2 (some d, j, k) p = (some s, p.2, p.1) := by
  simp only [matchStep]
  rw [if_neg hv, hsad, if_pos hlt]

/-- `matchStep` on an in-bounds candidate with a SAD at least the current
best keeps the state. -/
theorem matchStep_keep {prev curr : ℕ → ℚ} {w h bs bx by2 : ℕ} {d : ℚ}
    {j k : ℤ} {p : ℤ × ℤ}
    (hv : ¬((by2 : ℤ) + p.1 < 0 ∨ (by2 : ℤ) + p.1 + bs > h ∨
      (bx : ℤ) + p.2 < 0 ∨ (bx : ℤ) + p.2 + bs > w))
    (hge : d ≤ blockSAD prev curr w bs bx by2 ((bx : ℤ) + p.2).toNat
      ((by2 : ℤ) + p.1).toNat) :
    matchStep prev curr w h bs bx by2 (some d, j, k) p = (some d, j, k) := by
  simp only [matchStep]
  rw [if_neg hv, if_neg (not_lt.mpr hge)]

theorem sadAA_L0 : blockSAD (toGrayscale cexFrameA) (toGrayscale cexFrameA)
    4 2 0 0 0 0 = 0 := by
  rw [blockSAD]
  norm_num [List.range_succ, gval_A0, gval_A1, gval_A4, gval_A5]

theorem sadAA_R0 : blockSAD (toGrayscale cexFrameA) (toGrayscale cexFrameA)
    4 2 2 0 0 0 = 80 := by
  rw [blockSAD]
  norm_num [List.range_succ, gval_A0, gval_A1, gval_A2, gval_A3, gval_A4,
    gval_A5, gval_A6, gval_A7]

theorem sadAA_R1 : blockSAD (toGrayscale cexFrameA) (toGrayscale cexFrameA)
    4 2 2 0 1 0 = 40 := by
  rw [blockSAD]
  norm_num [List.range_succ, gval_A1, gval_A2, gval_A3, gval_A5, gval_A6,
    gval_A7]

theorem sadAA_R2 : blockSAD (toGrayscale cexFrameA) (toGrayscale cexFrameA)
    4 2 2 0 2 0 = 0 := by
  rw [blockSAD]
  norm_num [List.range_succ, gval_A2, gval_A3, gval_A6, gval_A7]

theorem sadAB_L0 : blockSAD (toGrayscale cexFrameA) (toGrayscale cexFrameB)
    4 2 0 0 0 0 = 80 := by
  rw [blockSAD]
  norm_num [List.range_succ, gval_A0, gval_A1, gval_A4, gval_A5, gval_B0,
    gval_B1, gval_B4, gval_B5]

theorem sadAB_L1 : blockSAD (toGrayscale cexFrameA) (toGrayscale cexFrameB)
    4 2 0 0 1 0 = 40 := by
  rw [blockSAD]
  norm_num [List.range_succ, gval_A1, gval_A2, gval_A5, gval_A6, gval_B0,
    gval_B1, gval_B4, gval_B5]

theorem sadAB_L2 : blockSAD (toGrayscale cexFrameA) (toGrayscale cexFrameB)
    4 2 0 0 2 0 = 0 := by
  rw [blockSAD]
  norm_num [List.range_succ, gval_A2, gval_A3, gval_A6, gval_A7, gval_B0,
    gval_B1, gval_B4, gval_B5]

theorem sadAB_R0 : blockSAD (toGrayscale cexFrameA) (toGrayscale cexFrameB)
    4 2 2 0 0 0 = 0 := by
  rw [blockSAD]
  norm_num [List.range_succ, gval_A0, gval_A1, gval_A4, gval_A5, gval_B2,
    gval_B3, gval_B6, gval_B7]

theorem sadBB_L0 : blockSAD (toGrayscale cexFrameB) (toGrayscale cexFrameB)
    4 2 0 0 0 0 = 0 := by
  rw [blockSAD]
  norm_num [List.range_succ, gval_B0, gval_B1, gval_B4, gval_B5]

theorem sadBB_R0 : blockSAD (toGrayscale cexFrameB) (toGrayscale cexFrameB)
    4 2 2 0 0 0 = 80 := by
  rw [blockSAD]
  norm_num [List.range_succ, gval_B0, gval_B1, gval_B2, gval_B3, gval_B4,
    gval_B5, gval_B6, gval_B7]

theorem sadBB_R1 : blockSAD (toGrayscale cexFrameB) (toGrayscale cexFrameB)
    4 2 2 0 1 0 = 80 := by
  rw [blockSAD]
  norm_num [List.range_succ, gval_B1, gval_B2, gval_B3, gval_B5, gval_B6,
    gval_B7]

theorem sadBB_R2 : blockSAD (toGrayscale cexFrameB) (toGrayscale cexFrameB)
    4 2 2 0 2 0 = 0 := by
  rw [blockSAD]
  norm_num [List.range_succ, gval_B2, gval_B3, gval_B6, gval_B7]

/-- Best match of the left block of `cexFrameA` against `cexFrameA`. -/
theorem bestBlockMatch_AA_left :
    bestBlockMatch (toGrayscale cexFrameA) (toGrayscale cexFrameA)
      4 2 2 0 0 = (0, 0) := by
  have h1 : matchStep (toGrayscale cexFrameA) (toGrayscale cexFrameA) 4 2 2 0 0
      ((none : Option ℚ), 0, 0) (0, 0) = (some 0, 0, 0) :=
    matchStep_none (by norm_num) sadAA_L0
  have h2 : matchStep (toGrayscale cexFrameA) (toGrayscale cexFrameA) 4 2 2 0 0
      ((some 0 : Option ℚ), 0, 0) (0, 1) = (some 0, 0, 0) :=
    matchStep_keep (by norm_num) (blockSAD_nonneg _ _ _ _ _ _ _ _)
  have h3 : matchStep (toGrayscale cexFrameA) (toGrayscale cexFrameA) 4 2 2 0 0
      ((some 0 : Option ℚ), 0, 0) (0, 2) = (some 0, 0, 0) :=
    matchStep_keep (by norm_num) (blockSAD_nonneg _ _ _ _ _ _ _ _)
  rw [bestBlockMatch,
    foldl_skip_filter _ _ (matchStep_skip _ _ 4 2 2 0 0), filt_bx0,
    List.foldl_cons, h1, List.foldl_cons, h2, List.foldl_cons, h3,
    List.foldl_nil]

/-- Best match of the right block of `cexFrameA` against `cexFrameA`. -/
theorem bestBlockMatch_AA_right :
    bestBlockMatch (toGrayscale cexFrameA) (toGrayscale cexFrameA)
      4 2 2 2 0 = (0, 0) := by
  have h1 : matchStep (toGrayscale cexFrameA) (toGrayscale cexFrameA) 4 2 2 2 0
      ((none : Option ℚ), 0, 0) (0, -2) = (some 80, -2, 0) :=
    matchStep_none (by norm_num) sadAA_R0
  have h2 : matchStep (toGrayscale cexFrameA) (toGrayscale cexFrameA) 4 2 2 2 0
      ((some 80 : Option ℚ), -2, 0) (0, -1) = (some 40, -1, 0) :=
    matchStep_lt (by norm_num) sadAA_R1 (by norm_num)
  have h3 : matchStep (toGrayscale cexFrameA) (toGrayscale cexFrameA) 4 2 2 2 0
      ((some 40 : Option ℚ), -1, 0) (0, 0) = (some 0, 0, 0) :=
    matchStep_lt (by norm_num) sadAA_R2 (by norm_num)
  rw [bestBlockMatch,
    foldl_skip_filter _ _ (matchStep_skip _ _ 4 2 2 2 0), filt_bx2,
    List.foldl_cons, h1, List.foldl_cons, h2, List.foldl_cons, h3,
    List.foldl_nil]

/-- Best match of the left block of `cexFrameB` against `cexFrameA`: the
content moved right by 2 pixels. -/
theorem bestBlockMatch_AB_left :
    bestBlockMatch (toGrayscale cexFrameA) (toGrayscale cexFrameB)
      4 2 2 0 0 = (2, 0) := by
  have h1 : matchStep (toGrayscale cexFrameA) (toGrayscale cexFrameB) 4 2 2 0 0
      ((none : Option ℚ), 0, 0) (0, 0) = (some 80, 0, 0) :=
    matchStep_none (by norm_num) sadAB_L0
  have h2 : matchStep (toGrayscale cexFrameA) (toGrayscale cexFrameB) 4 2 2 0 0
      ((some 80 : Option ℚ), 0, 0) (0, 1) = (some 40, 1, 0) :=
    matchStep_lt (by norm_num) sadAB_L1 (by norm_num)
  have h3 : matchStep (toGrayscale cexFrameA) (toGrayscale cexFrameB) 4 2 2 0 0
      ((some 40 : Option ℚ), 1, 0) (0, 2) = (some 0, 2, 0) :=
    matchStep_lt (by norm_num) sadAB_L2 (by norm_num)
  rw [bestBlockMatch,
    foldl_skip_filter _ _ (matchStep_skip _ _ 4 2 2 0 0), filt_bx0,
    List.foldl_cons, h1, List.foldl_cons, h2, List.foldl_cons, h3,
    List.foldl_nil]

/-- Best match of the right block of `cexFrameB` against `cexFrameA`: the
content moved left by 2 pixels. -/
theorem bestBlockMatch_AB_right :
    bestBlockMatch (toGrayscale cexFrameA) (toGrayscale cexFrameB)
      4 2 2 2 0 = (-2, 0) := by
  have h1 : matchStep (toGrayscale cexFrameA) (toGrayscale cexFrameB) 4 2 2 2 0
      ((none : Option ℚ), 0, 0) (0, -2) = (some 0, -2, 0) :=
    matchStep_none (by norm_num) sadAB_R0
  have h2 : matchStep (toGrayscale cexFrameA) (toGrayscale cexFrameB) 4 2 2 2 0
      ((some 0 : Option ℚ), -2, 0) (0, -1) = (some 0, -2, 0) :=
    matchStep_keep (by norm_num) (blockSAD_nonneg _ _ _ _ _ _ _ _)
  have h3 : matchStep (toGrayscale cexFrameA) (toGrayscale cexFrameB) 4 2 2 2 0
      ((some 0 : Option ℚ), -2, 0) (0, 0) = (some 0, -2, 0) :=
    matchStep_keep (by norm_num) (blockSAD_nonneg _ _ _ _ _ _ _ _)
  rw [bestBlockMatch,
    foldl_skip_filter _ _ (matchStep_skip _ _ 4 2 2 2 0), filt_bx2,
    List.foldl_cons, h1, List.foldl_cons, h2, List.foldl_cons, h3,
    List.foldl_nil]

/-- Best match of the left block of `cexFrameB` against `cexFrameB`. -/
theorem bestBlockMatch_BB_left :
    bestBlockMatch (toGrayscale cexFrameB) (toGrayscale cexFrameB)
      4 2 2 0 0 = (0, 0) := by
  have h1 : matchStep (toGrayscale cexFrameB) (toGrayscale cexFrameB) 4 2 2 0 0
      ((none : Option ℚ), 0, 0) (0, 0) = (some 0, 0, 0) :=
    matchStep_none (by norm_num) sadBB_L0
  have h2 : matchStep (toGrayscale cexFrameB) (toGrayscale cexFrameB) 4 2 2 0 0
      ((some 0 : Option ℚ), 0, 0) (0, 1) = (some 0, 0, 0) :=
    matchStep_keep (by norm_num) (blockSAD_nonneg _ _ _ _ _ _ _ _)
  have h3 : matchStep (toGrayscale cexFrameB) (toGrayscale cexFrameB) 4 2 2 0 0
      ((some 0 : Option ℚ), 0, 0) (0, 2) = (some 0, 0, 0) :=
    matchStep_keep (by norm_num) (blockSAD_nonneg _ _ _ _ _ _ _ _)
  rw [bestBlockMatch,
    foldl_skip_filter _ _ (matchStep_skip _ _ 4 2 2 0 0), filt_bx0,
    List.foldl_cons, h1, List.foldl_cons, h2, List.foldl_cons, h3,
    List.foldl_nil]

/-- Best match of the right block of `cexFrameB` against `cexFrameB`. -/
theorem bestBlockMatch_BB_right :
    bestBlockMatch (toGrayscale cexFrameB) (toGrayscale cexFrameB)
      4 2 2 2 0 = (0, 0) := by
  have h1 : matchStep (toGrayscale cexFrameB) (toGrayscale cexFrameB) 4 2 2 2 0
      ((none : Option ℚ), 0, 0) (0, -2) = (some 80, -2, 0) :=
    matchStep_none (by norm_num) sadBB_R0
  have h2 : matchStep (toGrayscale cexFrameB) (toGrayscale cexFrameB) 4 2 2 2 0
      ((some 80 : Option ℚ), -2, 0) (0, -1) = (some 80, -2, 0) :=
    matchStep_keep (by norm_num) (le_of_eq sadBB_R1.symm)
  have h3 : matchStep (toGrayscale cexFrameB) (toGrayscale cexFrameB) 4 2 2 2 0
      ((some 80 : Option ℚ), -2, 0) (0, 0) = (some 0, 0, 0) :=
    matchStep_lt (by norm_num) sadBB_R2 (by norm_num)
  rw [bestBlockMatch,
    foldl_skip_filter _ _ (matchStep_skip _ _ 4 2 2 2 0), filt_bx2,
    List.foldl_cons, h1, List.foldl_cons, h2, List.foldl_cons, h3,
    List.foldl_nil]

/-- The two block grid positions of a 4×2 frame with block size 2. -/
theorem blockGrid_4x2 :
    ((List.range (2 / 2)).bind (fun ky =>
      (List.range (4 / 2)).map (fun kx => (ky * 2, kx * 2)))) =
      [(0, 0), (0, 2)] := by decide

/-- Flow magnitude of the identical transition `cexFrameA → cexFrameA`. -/
theorem frameFlow_AA : frameFlow cexFrameA cexFrameA 2 = 0 := by
  rw [frameFlow, blockVectors]
  rw [show cexFrameA.height = 2 from rfl, show cexFrameA.width = 4 from rfl,
    blockGrid_4x2]
  simp only [List.map_cons, List.map_nil, bestBlockMatch_AA_left,
    bestBlockMatch_AA_right]
  norm_num

/-- Flow magnitude of the transition `cexFrameA → cexFrameB`: both blocks
move 2 pixels horizontally, so the average match-vector magnitude is 2. -/
theorem frameFlow_AB : frameFlow cexFrameA cexFrameB 2 = 2 := by
  rw [frameFlow, blockVectors]
  rw [show cexFrameB.height = 2 from rfl, show cexFrameB.width = 4 from rfl,
    blockGrid_4x2]
  simp only [List.map_cons, List.map_nil, bestBlockMatch_AB_left,
    bestBlockMatch_AB_right]
  have h4 : Real.sqrt 4 = 2 := by
    rw [show (4 : ℝ) = 2 ^ 2 by norm_num]
    exact Real.sqrt_sq (by norm_num)
  norm_num [h4]

/-- Flow magnitude of the identical transition `cexFrameB → cexFrameB`. -/
theorem frameFlow_BB : frameFlow cexFrameB cexFrameB 2 = 0 := by
  rw [frameFlow, blockVectors]
  rw [show cexFrameB.height = 2 from rfl, show cexFrameB.width = 4 from rfl,
    blockGrid_4x2]
  simp only [List.map_cons, List.map_nil, bestBlockMatch_BB_left,
    bestBlockMatch_BB_right]
  norm_num

/-- The full optical-flow result on the frames `[A, A, B, B]`: the flow
magnitudes are `[0, 2, 0]` and the variance of their absolute first
differences `[2, 2]` is 0. -/
theorem computeOpticalFlow_cex :
    computeOpticalFlow [cexFrameA, cexFrameA, cexFrameB, cexFrameB] 2 =
      ⟨0, [0, 2, 0]⟩ := by
  rw [computeOpticalFlow]
  rw [if_neg (by norm_num)]
  simp only [List.zip_cons_cons, List.tail_cons, List.zip_nil_right,
    List.map_cons, List.map_nil, frameFlow_AA, frameFlow_AB, frameFlow_BB]
  norm_num [sampleVariance]

/-- Counterexample to C6 as stated: on the concrete frame sequence
`[A, A, B, B]` the flow magnitudes are `[0, 2, 0]`; the returned
flow-acceleration variance is 0 (the variance of the absolute differences
`[2, 2]`), whereas the variance of the signed first difference `[2, -2]`
is 4. -/
theorem computeOpticalFlow_abs_counterexample :
    (computeOpticalFlow [cexFrameA, cexFrameA, cexFrameB, cexFrameB] 2).fav ≠
      sampleVariance (firstDiff
        (computeOpticalFlow
          [cexFrameA, cexFrameA, cexFrameB, cexFrameB] 2).flowMagnitudes) := by
  rw [computeOpticalFlow_cex]
  norm_num [firstDiff, sampleVariance]

/-- C6 (amended). For at least 3 frames, the flow magnitudes returned by
`computeOpticalFlow` are the per-transition average block match-vector
magnitudes, and `fav` is the variance of the sequence of absolute values of
the first differences of consecutive flow magnitudes (the code applies
`Math.abs` to each first difference before taking the variance). -/
theorem computeOpticalFlow_fav_spec (frames : List ImageData) (bs : ℕ)
    (h : 3 ≤ frames.length) :
    (computeOpticalFlow frames bs).flowMagnitudes =
      (frames.zip frames.tail).map (fun p => frameFlow p.1 p.2 bs) ∧
    (computeOpticalFlow frames bs).fav =
      sampleVariance ((firstDiff
        (computeOpticalFlow frames bs).flowMagnitudes).map (fun d => |d|)) := by
  have habs : ∀ l : List ℝ,
      (firstDiff l).map (fun d => |d|) =
        (l.zip l.tail).map (fun p => |p.2 - p.1|) := by
    intro l
    rw [firstDiff, List.map_map]
    rfl
  rw [computeOpticalFlow]
  rw [if_neg (by omega)]
  have hmlen : ((frames.zip frames.tail).map
      (fun p => frameFlow p.1 p.2 bs)).length = frames.length - 1 := by
    rw [List.length_map, List.length_zip, List.length_tail]
    omega
  set mags := (frames.zip frames.tail).map (fun p => frameFlow p.1 p.2 bs)
    with hmags
  have halen : ((mags.zip mags.tail).map (fun p => |p.2 - p.1|)).length =
      frames.length - 2 := by
    rw [List.length_map, List.length_zip, List.length_tail, hmlen]
    omega
  rw [if_neg (by omega)]
  exact ⟨rfl, by rw [habs]⟩

/-- Witness for C6 (amended) on the concrete frame sequence. -/
theorem computeOpticalFlow_fav_spec_witness :
    (computeOpticalFlow [cexFrameA, cexFrameA, cexFrameB, cexFrameB]
        16).flowMagnitudes =
      ([cexFrameA, cexFrameA, cexFrameB, cexFrameB].zip
        [cexFrameA, cexFrameA, cexFrameB, cexFrameB].tail).map
          (fun p => frameFlow p.1 p.2 16) ∧
    (computeOpticalFlow [cexFrameA, cexFrameA, cexFrameB, cexFrameB] 16).fav =
      sampleVariance ((firstDiff
        (computeOpticalFlow [cexFrameA, cexFrameA, cexFrameB, cexFrameB]
          16).flowMagnitudes).map (fun d => |d|)) :=
  computeOpticalFlow_fav_spec _ 16 (by norm_num)

/-- A sample buffer shorter than one frame yields no STFT frame starts. -/
theorem frameStarts_nil (n fs hop : ℕ) (h : n < fs) :
    frameStarts n fs hop = [] := by
  rw [frameStarts]
  rw [if_neg (by omega)]
  rfl

/-- Counterexample to C7 as stated: on the empty sample buffer (shorter than
one analysis frame) `computeSpectralFlatness` returns the NaN produced by
the division `0 / 0`, not the value 0 claimed by the spec. -/
theorem computeSpectralFlatness_short_not_zero :
    (computeSpectralFlatness ([] : List ℝ) 1024).frd ≠ some 0 ∧
      (computeSpectralFlatness ([] : List ℝ) 1024).frd = none := by
  have h : frameStarts ([] : List ℝ).length 1024 512 = [] :=
    frameStarts_nil _ _ _ (by norm_num)
  rw [computeSpectralFlatness, computeSTFT, h]
  simp

/-- C7 (amended). On a sample buffer shorter than one analysis frame, the
energy-transition kurtosis is 0 and the pitch-variance smoothness is 0; the
spectral-flatness deviation is the NaN of the JavaScript division `0 / 0`
over zero frames (not 0); and none of the three degenerate metrics generates
a detection signal. -/
theorem audio_short_input_neutral (samples : List ℝ)
    (h : samples.length < 1024) :
    (computeEnergyTransition samples).etk = 0 ∧
    (computePitchMetrics samples).pvss = 0 ∧
    (computeSpectralFlatness samples).frd = none ∧
    audioSignals (computeEnergyTransition samples) (computePitchMetrics samples)
      (computeSpectralFlatness samples) = [] := by
  have h1 : frameStarts samples.length 1024 512 = [] :=
    frameStarts_nil _ _ _ h
  have h2 : frameStarts samples.length 2048 1024 = [] :=
    frameStarts_nil _ _ _ (by omega)
  have hetk : (computeEnergyTransition samples).etk = 0 := by
    rw [computeEnergyTransition, computeSTFT]
    norm_num [h1, firstDiff, kurtosis]
  have hpitch : computePitchMetrics samples = ⟨0, []⟩ := by
    rw [computePitchMetrics]
    norm_num [h2]
  have hfrd : (computeSpectralFlatness samples).frd = none := by
    rw [computeSpectralFlatness, computeSTFT]
    norm_num [h1]
  refine ⟨hetk, by rw [hpitch], hfrd, ?_⟩
  rw [audioSignals, hetk, hpitch, hfrd]
  norm_num

/-- Witness for C7 (amended) on the concrete empty sample buffer. -/
theorem audio_short_input_neutral_witness :
    (computeEnergyTransition ([] : List ℝ)).etk = 0 ∧
    (computePitchMetrics ([] : List ℝ)).pvss = 0 ∧
    (computeSpectralFlatness ([] : List ℝ)).frd = none ∧
    audioSignals (computeEnergyTransition ([] : List ℝ))
      (computePitchMetrics ([] : List ℝ))
      (computeSpectralFlatness ([] : List ℝ)) = [] :=
  audio_short_input_neutral [] (by norm_num)

/-- On a list whose scores all equal the running mean, every CUSUM iteration
leaves the state at `(0, 0, [])` (allowance 0.1, threshold 0.5). -/
theorem cusumStep_const_foldl (c : ℝ) (l : List (ℕ × SegmentAuthenticity))
    (hl : ∀ p ∈ l, p.2.authenticityScore = c) :
    l.foldl (cusumStep c 0.1 0.5) (0, 0, []) = (0, 0, []) := by
  induction l with
  | nil => rfl
  | cons p l ih =>
      have hp : p.2.authenticityScore = c := hl p (List.mem_cons_self p l)
      have hstep : cusumStep c 0.1 0.5 (0, 0, []) p = (0, 0, []) := by
        rw [cusumStep]
        have h1 : max 0 ((0 : ℝ) + (c - p.2.authenticityScore - 0.1)) = 0 := by
          rw [hp]; norm_num
        have h2 : max 0 ((0 : ℝ) + (p.2.authenticityScore - c - 0.1)) = 0 := by
          rw [hp]; norm_num
        simp only [h1, h2]
        norm_num
      rw [List.foldl_cons, hstep]
      exact ih (fun q hq => hl q (List.mem_cons_of_mem p hq))

/-- The sum of the score list of a constant-score segment list. -/
theorem scores_sum_const (c : ℝ) (segs : List SegmentAuthenticity)
    (hconst : ∀ s ∈ segs, s.authenticityScore = c) :
    (segs.map (·.authenticityScore)).sum = c * segs.length := by
  induction segs with
  | nil => simp
  | cons s l ih =>
      have hs : s.authenticityScore = c := hconst s (List.mem_cons_self s l)
      rw [List.map_cons, List.sum_cons, hs,
        ih (fun q hq => hconst q (List.mem_cons_of_mem s hq)), List.length_cons]
      push_cast
      ring

/-- C4. On a constant segment-authenticity sequence of length at least 3,
`detectChangePoints` with allowance 0.1 and threshold 0.5 reports no change
points, and both running CUSUM statistics remain 0 after every prefix of the
iteration. -/
theorem detectChangePoints_const (segs : List SegmentAuthenticity) (c : ℝ)
    (hlen : 3 ≤ segs.length) (hconst : ∀ s ∈ segs, s.authenticityScore = c) :
    (∀ n : ℕ, (segs.enum.take n).foldl (cusumStep c 0.1 0.5) (0, 0, []) = (0, 0, []))
    ∧ detectChangePoints segs 0.1 0.5 = [] := by
  have henum : ∀ p ∈ segs.enum, p.2.authenticityScore = c := by
    intro p hp
    exact hconst p.2 (List.snd_mem_of_mem_enum hp)
  have hinitseg : ∀ n : ℕ,
      (segs.enum.take n).foldl (cusumStep c 0.1 0.5) (0, 0, []) = (0, 0, []) := by
    intro n
    exact cusumStep_const_foldl c _ (fun p hp => henum p (List.mem_of_mem_take hp))
  refine ⟨hinitseg, ?_⟩
  have hlen0 : (segs.length : ℝ) ≠ 0 := by
    have : 0 < segs.length := by omega
    positivity
  have hmean : (segs.map (·.authenticityScore)).sum /
      ((segs.map (·.authenticityScore)).length : ℝ) = c := by
    rw [List.length_map, scores_sum_const c segs hconst,
      mul_div_assoc, div_self hlen0, mul_one]
  rw [detectChangePoints, if_neg (by omega)]
  simp only [hmean]
  have := hinitseg segs.enum.length
  rw [List.take_length] at this
  rw [this]

/-- Witness for C4: three identical segments. -/
theorem detectChangePoints_const_witness :
    detectChangePoints
      [⟨0, 0, 5, 0.7, false⟩, ⟨1, 5, 10, 0.7, false⟩, ⟨2, 10, 15, 0.7, false⟩]
      0.1 0.5 = [] :=
  (detectChangePoints_const _ 0.7 (by norm_num)
    (by intro s hs; fin_cases hs <;> rfl)).2

/-- Elementwise view of one enrichment pass. -/
theorem enrichApplyCP_getElem (r : ℕ) (segs : List SegmentAuthenticity)
    (cp : ChangePoint) (i : ℕ) :
    (enrichApplyCP r segs cp)[i]? = (segs[i]?).map (fun s =>
      if cp.direction = .increase ∧ s.flagged = false ∧
          max 0 (cp.segmentIndex - r) ≤ (i : ℤ) ∧
          (i : ℤ) ≤ min ((segs.length : ℤ) - 1) (cp.segmentIndex + r)
      then { s with flagged := true } else s) := by
  rw [enrichApplyCP]
  simp only [List.getElem?_map, List.getElem?_enum]
  rcases segs[i]? with _ | s <;> simp

/-- One enrichment pass preserves the list length. -/
theorem enrichApplyCP_length (r : ℕ) (segs : List SegmentAuthenticity)
    (cp : ChangePoint) : (enrichApplyCP r segs cp).length = segs.length := by
  rw [enrichApplyCP]
  simp

/-- C9. `enrichSegmentsWithChangePoints` only turns on the flagged field:
the output has the same length; every segment keeps its index, start time,
end time and authenticity score; a flagged input segment stays flagged; and
a segment is flagged in the output exactly when it was already flagged or
lies within the radius of some change point of direction increase. -/
theorem enrichSegments_spec (segs : List SegmentAuthenticity)
    (cps : List ChangePoint) (r : ℕ) :
    (enrichSegmentsWithChangePoints segs cps r).length = segs.length ∧
    (∀ (i : ℕ) (sIn sOut : SegmentAuthenticity), segs[i]? = some sIn →
      (enrichSegmentsWithChangePoints segs cps r)[i]? = some sOut →
      sOut.segmentIndex = sIn.segmentIndex ∧ sOut.startTime = sIn.startTime ∧
      sOut.endTime = sIn.endTime ∧
      sOut.authenticityScore = sIn.authenticityScore ∧
      (sIn.flagged = true → sOut.flagged = true) ∧
      (sOut.flagged = true ↔ sIn.flagged = true ∨
        ∃ cp ∈ cps, cp.direction = .increase ∧
          cp.segmentIndex - r ≤ (i : ℤ) ∧ (i : ℤ) ≤ cp.segmentIndex + r)) := by
  induction cps generalizing segs with
  | nil =>
      refine ⟨rfl, ?_⟩
      intro i sIn sOut hIn hOut
      rw [enrichSegmentsWithChangePoints, List.foldl_nil] at hOut
      rw [hIn] at hOut
      cases hOut
      simp
  | cons cp rest ih =>
      have hstep : enrichSegmentsWithChangePoints segs (cp :: rest) r =
          enrichSegmentsWithChangePoints (enrichApplyCP r segs cp) rest r := by
        rw [enrichSegmentsWithChangePoints, enrichSegmentsWithChangePoints,
          List.foldl_cons]
      obtain ⟨ihlen, ihget⟩ := ih (enrichApplyCP r segs cp)
      constructor
      · rw [hstep, ihlen, enrichApplyCP_length]
      · intro i sIn sOut hIn hOut
        rw [hstep] at hOut
        have hi : i < segs.length := by
          by_contra h
          rw [List.getElem?_eq_none (by omega)] at hIn
          cases hIn
        set sMid := if cp.direction = .increase ∧ sIn.flagged = false ∧
            max 0 (cp.segmentIndex - r) ≤ (i : ℤ) ∧
            (i : ℤ) ≤ min ((segs.length : ℤ) - 1) (cp.segmentIndex + r)
          then { sIn with flagged := true } else sIn with hsMid
        have hMid : (enrichApplyCP r segs cp)[i]? = some sMid := by
          rw [enrichApplyCP_getElem, hIn]
          rfl
        obtain ⟨h1, h2, h3, h4, h5, h6⟩ := ihget i sMid sOut hMid hOut
        have hfields : sMid.segmentIndex = sIn.segmentIndex ∧
            sMid.startTime = sIn.startTime ∧ sMid.endTime = sIn.endTime ∧
            sMid.authenticityScore = sIn.authenticityScore := by
          rw [hsMid]; split <;> simp
        have hwin : (max 0 (cp.segmentIndex - r) ≤ (i : ℤ) ∧
            (i : ℤ) ≤ min ((segs.length : ℤ) - 1) (cp.segmentIndex + r)) ↔
            (cp.segmentIndex - r ≤ (i : ℤ) ∧ (i : ℤ) ≤ cp.segmentIndex + r) := by
          have : (i : ℤ) < (segs.length : ℤ) := by exact_mod_cast hi
          omega
        have hMidFlag : sMid.flagged = true ↔ sIn.flagged = true ∨
            (cp.direction = .increase ∧ cp.segmentIndex - r ≤ (i : ℤ) ∧
              (i : ℤ) ≤ cp.segmentIndex + r) := by
          rw [hsMid]
          split
          · rename_i hcond
            constructor
            · intro _
              exact Or.inr ⟨hcond.1, hwin.mp hcond.2.2⟩
            · intro _; rfl
          · rename_i hcond
            constructor
            · intro hf; exact Or.inl hf
            · rintro (hf | ⟨hdir, hw⟩)
              · exact hf
              · by_cases hflag : sIn.flagged = true
                · exact hflag
                · exact absurd ⟨hdir, by simpa using hflag, hwin.mpr hw⟩ hcond
        refine ⟨h1.trans hfields.1, h2.trans hfields.2.1,
          h3.trans hfields.2.2.1, h4.trans hfields.2.2.2, ?_, ?_⟩
        · intro hf
          exact h5 (hMidFlag.mpr (Or.inl hf))
        · rw [h6, hMidFlag]
          constructor
          · rintro ((hf | hcp) | ⟨q, hq, hrest⟩)
            · exact Or.inl hf
            · exact Or.inr ⟨cp, List.mem_cons_self cp rest,
                hcp.1, hcp.2.1, hcp.2.2⟩
            · exact Or.inr ⟨q, List.mem_cons_of_mem cp hq, hrest⟩
          · rintro (hf | ⟨q, hq, hrest⟩)
            · exact Or.inl (Or.inl hf)
            · rcases List.mem_cons.mp hq with rfl | hq2
              · exact Or.inl (Or.inr hrest)
              · exact Or.inr ⟨q, hq2, hrest⟩

/-- Witness for C9: two segments, one increase change point at index 0 with
radius 1 flags both segments. -/
theorem enrichSegments_spec_witness :
    (enrichSegmentsWithChangePoints
      [⟨0, 0, 5, 0.9, false⟩, ⟨1, 5, 10, 0.4, true⟩]
      [⟨0, 0, 0.6, .increase⟩] 1).length = 2 ∧
    ∀ sOut, (enrichSegmentsWithChangePoints
        [⟨0, 0, 5, 0.9, false⟩, ⟨1, 5, 10, 0.4, true⟩]
        [⟨0, 0, 0.6, .increase⟩] 1)[0]? = some sOut →
      sOut.flagged = true := by
  obtain ⟨hlen, hget⟩ := enrichSegments_spec
    [⟨0, 0, 5, 0.9, false⟩, ⟨1, 5, 10, 0.4, true⟩]
    [⟨0, 0, 0.6, .increase⟩] 1
  refine ⟨by rw [hlen]; rfl, ?_⟩
  intro sOut hOut
  obtain ⟨_, _, _, _, _, hiff⟩ := hget 0 ⟨0, 0, 5, 0.9, false⟩ sOut rfl hOut
  refine hiff.mpr (Or.inr ⟨⟨0, 0, 0.6, .increase⟩, List.mem_singleton.mpr rfl,
    rfl, by norm_num, by norm_num⟩)

/-- The empty signal list lies in every identifier universe. -/
theorem SignalSet.nil (u : List String) : SignalSet u [] :=
  ⟨List.nodup_nil, by simp⟩

/-- Enlarging the identifier universe preserves `SignalSet`. -/
theorem SignalSet.mono {u v : List String} {l : List DetectionSignalOutput}
    (h : SignalSet u l) (huv : u ⊆ v) : SignalSet v l :=
  ⟨h.1, h.2.trans huv⟩

/-- Appending signal lists over disjoint identifier universes. -/
theorem SignalSet.append {u v : List String}
    {l m : List DetectionSignalOutput} (hl : SignalSet u l)
    (hm : SignalSet v m) (hd : ∀ x ∈ u, x ∉ v) :
    SignalSet (u ++ v) (l ++ m) := by
  refine ⟨?_, ?_⟩
  · rw [List.map_append]
    exact hl.1.append hm.1 (fun x hx hy => hd x (hl.2 hx) (hm.2 hy))
  · rw [List.map_append]
    intro x hx
    rcases List.mem_append.mp hx with hx | hx
    · exact List.mem_append.mpr (Or.inl (hl.2 hx))
    · exact List.mem_append.mpr (Or.inr (hm.2 hx))

/-- A conditionally emitted signal whose identifier lies in the universe. -/
theorem signalSet_cond (c : Prop) [Decidable c] (s : DetectionSignalOutput)
    (u : List String) (h : s.id ∈ u) :
    SignalSet u (if c then [s] else []) := by
  split_ifs
  · exact ⟨List.nodup_singleton _, by simpa using h⟩
  · exact SignalSet.nil u

/-- A signal emitted under two nested conditions. -/
theorem signalSet_cond2 (c d : Prop) [Decidable c] [Decidable d]
    (s : DetectionSignalOutput) (u : List String) (h : s.id ∈ u) :
    SignalSet u (if c then (if d then [s] else []) else []) := by
  split_ifs
  · exact ⟨List.nodup_singleton _, by simpa using h⟩
  · exact SignalSet.nil u
  · exact SignalSet.nil u

/-- The metadata signals carry distinct identifiers from the metadata
universe. -/
theorem metadataSignals_ok (a b c : Bool) :
    SignalSet ["meta-exif-stripped", "meta-edited", "meta-recompression"]
      (metadataSignals a b c) := by
  rw [metadataSignals]
  exact SignalSet.mono
    (((signalSet_cond _ _ ["meta-exif-stripped"] (by simp)).append
      (signalSet_cond _ _ ["meta-edited"] (by simp)) (by decide)).append
      (signalSet_cond _ _ ["meta-recompression"] (by simp)) (by decide))
    (by decide)

/-- The image signal list carries distinct identifiers from the image/video
universe. -/
theorem analyzeImageSignals_ok (f : FrequencyMetrics)
    (t : Option TextureMetrics) (ms : List DetectionSignalOutput)
    (hms : SignalSet ["meta-exif-stripped", "meta-edited", "meta-recompression"]
      ms) :
    SignalSet imageVideoIds (analyzeImageSignals f t ms) := by
  rw [analyzeImageSignals.eq_def]
  cases t with
  | none =>
      exact SignalSet.mono
        (((hms.append (signalSet_cond _ _ ["freq-hfer-low"] (by simp))
            (by decide)).append
          (signalSet_cond _ _ ["freq-svd-high"] (by simp)) (by decide)).append
          (SignalSet.nil ["tex-pdi-high"]) (by decide))
        (by decide)
  | some tt =>
      exact SignalSet.mono
        (((hms.append (signalSet_cond _ _ ["freq-hfer-low"] (by simp))
            (by decide)).append
          (signalSet_cond _ _ ["freq-svd-high"] (by simp)) (by decide)).append
          (signalSet_cond _ _ ["tex-pdi-high"] (by simp)) (by decide))
        (by decide)

theorem analyzeImage_ok (f : FrequencyMetrics) (tm : TextureMetrics)
    (a b c e : Bool) :
    SignalSet imageVideoIds (analyzeImage f tm a b c e).signals := by
  simp only [analyzeImage]
  exact analyzeImageSignals_ok _ _ _ (metadataSignals_ok a b c)

theorem analyzeImageFromBuffer_ok (a b c : Bool) :
    SignalSet imageVideoIds (analyzeImageFromBuffer a b c).signals := by
  simp only [analyzeImageFromBuffer]
  exact (metadataSignals_ok a b c).mono (by decide)

theorem analyzeVideo_ok (fc : ℕ) (f : FrequencyMetrics) (t : TextureMetrics)
    (ti : TemporalIdentityMetrics) (fl : OpticalFlowMetrics)
    (segs : List SegmentAuthenticity) (et eo : Bool) :
    SignalSet imageVideoIds (analyzeVideo fc f t ti fl segs et eo).signals := by
  simp only [analyzeVideo]
  exact SignalSet.mono
    ((((signalSet_cond2 _ _ _ ["vid-freq-anomaly"] (by simp)).append
      (signalSet_cond _ _ ["vid-tiis-high"] (by simp)) (by decide)).append
      (signalSet_cond2 _ _ _ ["vid-fav-high"] (by simp)) (by decide)).append
      (signalSet_cond _ _ ["vid-segment-flags"] (by simp)) (by decide))
    (by decide)

theorem audioSignals_ok (et : EnergyTransitionMetrics) (p : PitchMetrics)
    (sf : SpectralFlatnessMetrics) :
    SignalSet audioIds (audioSignals et p sf) := by
  rw [audioSignals]
  cases hfrd : sf.frd with
  | none =>
      exact SignalSet.mono
        (((signalSet_cond _ _ ["audio-etk-high"] (by simp)).append
          (signalSet_cond _ _ ["audio-pvss-smooth"] (by simp))
          (by decide)).append (SignalSet.nil ["audio-frd-anomaly"]) (by decide))
        (by decide)
  | some x =>
      exact SignalSet.mono
        (((signalSet_cond _ _ ["audio-etk-high"] (by simp)).append
          (signalSet_cond _ _ ["audio-pvss-smooth"] (by simp))
          (by decide)).append
          (signalSet_cond _ _ ["audio-frd-anomaly"] (by simp)) (by decide))
        (by decide)

theorem analyzeAudio_ok (samples : List ℝ) :
    SignalSet audioIds (analyzeAudio samples).signals := by
  simp only [analyzeAudio]
  exact audioSignals_ok _ _ _

/-- `mergeSignals` preserves distinctness and the identifier universe when
the incoming identifiers lie in the universe. -/
theorem mergeSignals_ok {u : List String}
    (existing incoming : List DetectionSignalOutput)
    (hex : SignalSet u existing) (hin : incoming.map (·.id) ⊆ u) :
    SignalSet u (mergeSignals existing incoming) := by
  induction incoming generalizing existing with
  | nil => exact hex
  | cons sig rest ih =>
      have hstep : SignalSet u
          (if sig.id ∈ existing.map (·.id) then existing
           else existing ++ [sig]) := by
        split_ifs with hmem
        · exact hex
        · refine ⟨?_, ?_⟩
          · rw [List.map_append]
            refine hex.1.append (List.nodup_singleton _) ?_
            intro x hx hy
            simp only [List.map_cons, List.map_nil, List.mem_singleton] at hy
            subst hy
            exact hmem hx
          · rw [List.map_append]
            intro x hx
            rcases List.mem_append.mp hx with hx | hx
            · exact hex.2 hx
            · simp only [List.map_cons, List.map_nil,
                List.mem_singleton] at hx
              subst hx
              exact hin (by simp)
      have hrest : rest.map (·.id) ⊆ u := by
        intro x hx
        exact hin (by simp [hx])
      have : mergeSignals existing (sig :: rest) =
          mergeSignals (if sig.id ∈ existing.map (·.id) then existing
            else existing ++ [sig]) rest := by
        rw [mergeSignals, List.foldl_cons, mergeSignals]
      rw [this]
      exact ih _ hstep hrest

/-- With a stability counter of 0 (the defaulted argument the pipeline
passes), `evaluateEscalation` can never report an early exit. -/
theorem evaluateEscalation_zero (l : AnalysisLevel) (r p : ℝ)
    (v : AMAFFeatureVector) (b : Bool) :
    (evaluateEscalation l r p v 0 b).earlyExit = false := by
  rw [evaluateEscalation]
  have hno : ¬((p > 0.95 ∨ p < 0.05) ∧ (0 : ℕ) ≥ 3) := by
    rintro ⟨-, h3⟩
    omega
  rw [if_neg hno]
  dsimp only
  split_ifs <;> rfl

theorem l1ImageStep_earlyExit (route : MediaRoute) (env : PipelineEnv)
    (st : PipeState) : (l1ImageStep route env st).earlyExit = st.earlyExit := by
  rw [l1ImageStep]
  split_ifs <;> rfl

theorem l1VideoStep_earlyExit (route : MediaRoute) (env : PipelineEnv)
    (st : PipeState) : (l1VideoStep route env st).earlyExit = st.earlyExit := by
  rw [l1VideoStep]
  split_ifs <;> rfl

theorem l1AudioStep_earlyExit (route : MediaRoute) (st : PipeState) :
    (l1AudioStep route st).earlyExit = st.earlyExit := by
  rw [l1AudioStep]
  split_ifs <;> rfl

/-- The Level-1 escalation check can never set the early-exit flag, because
its stability counter is the defaulted 0. -/
theorem l1Escalation_earlyExit (env : PipelineEnv) (st : PipeState) :
    (l1Escalation env st).earlyExit = st.earlyExit := by
  simp only [l1Escalation, evaluateEscalation_zero]
  split_ifs <;>
    first
      | rfl
      | exact absurd ‹false = true› (by decide)
      | exact False.elim ‹False›

theorem pipelineLevel1_earlyExit (route : MediaRoute) (env : PipelineEnv) :
    (pipelineLevel1 route env).earlyExit = false := by
  simp only [pipelineLevel1, l1Escalation_earlyExit, l1AudioStep_earlyExit,
    l1VideoStep_earlyExit, l1ImageStep_earlyExit]

theorem l2ImageStep_earlyExit (route : MediaRoute) (env : PipelineEnv)
    (st : PipeState) : (l2ImageStep route env st).earlyExit = st.earlyExit := by
  rw [l2ImageStep]
  split_ifs <;> rfl

theorem l2VideoStep_earlyExit (route : MediaRoute) (env : PipelineEnv)
    (st : PipeState) : (l2VideoStep route env st).earlyExit = st.earlyExit := by
  rw [l2VideoStep]
  split_ifs <;> rfl

theorem l2AudioStep_earlyExit (route : MediaRoute) (env : PipelineEnv)
    (st : PipeState) : (l2AudioStep route env st).earlyExit = st.earlyExit := by
  rw [l2AudioStep]
  split_ifs <;> rfl

/-- The Level-2 escalation check can never set the early-exit flag, because
its stability counter is the defaulted 0. -/
theorem l2Escalation_earlyExit (env : PipelineEnv) (st : PipeState) :
    (l2Escalation env st).earlyExit = st.earlyExit := by
  simp only [l2Escalation, evaluateEscalation_zero]
  split_ifs <;>
    first
      | rfl
      | exact absurd ‹false = true› (by decide)
      | exact False.elim ‹False›

theorem pipelineLevel2_earlyExit (route : MediaRoute) (env : PipelineEnv)
    (st : PipeState) (h : st.earlyExit = false) :
    (pipelineLevel2 route env st).earlyExit = false := by
  rw [pipelineLevel2]
  split_ifs
  · rw [l2Escalation_earlyExit, l2AudioStep_earlyExit, l2VideoStep_earlyExit,
      l2ImageStep_earlyExit]
    exact h
  · exact h

theorem l3VideoStep_earlyExit (route : MediaRoute) (env : PipelineEnv)
    (st : PipeState) : (l3VideoStep route env st).earlyExit = st.earlyExit := by
  rw [l3VideoStep]
  split_ifs <;> rfl

theorem l3Cusum_earlyExit (st : PipeState) :
    ((l3Cusum st).1).earlyExit = st.earlyExit := by
  simp only [l3Cusum]
  split_ifs <;> rfl

theorem pipelineLevel3_earlyExit (route : MediaRoute) (env : PipelineEnv)
    (st : PipeState) :
    ((pipelineLevel3 route env st).1).earlyExit = st.earlyExit := by
  rw [pipelineLevel3]
  split_ifs
  · rw [l3Cusum_earlyExit, l3VideoStep_earlyExit]
  · rfl

/-- C10. The pipeline omits the stability-counter argument in both
escalation checks, so the early-exit branch is unreachable and every
analysis result has `earlyExit = false`. -/
theorem runPipeline_earlyExit_false (route : MediaRoute) (env : PipelineEnv) :
    (runPipeline route env).earlyExit = false := by
  simp only [runPipeline]
  rw [pipelineLevel3_earlyExit]
  exact pipelineLevel2_earlyExit _ _ _ (pipelineLevel1_earlyExit _ _)

theorem pipelineLevel1_signals (route : MediaRoute) (env : PipelineEnv) :
    SignalSet imageVideoIds (pipelineLevel1 route env).signals := by
  have haud : ∀ s : PipeState, (l1AudioStep route s).signals = s.signals := by
    intro s
    rw [l1AudioStep]
    split_ifs <;> rfl
  have hesc : ∀ s : PipeState, (l1Escalation env s).signals = s.signals := by
    intro s
    simp only [l1Escalation]
    split_ifs <;> rfl
  simp only [pipelineLevel1, hesc, haud]
  cases hmt : route.mediaType with
  | image =>
      rw [l1VideoStep, if_neg (by simp [hmt])]
      rw [l1ImageStep, if_pos hmt]
      by_cases hid : route.hasImageData
      · simp only [if_pos hid, List.nil_append]
        exact analyzeImage_ok _ _ _ _ _ _
      · simp only [if_neg hid, List.nil_append]
        exact analyzeImageFromBuffer_ok _ _ _
  | video =>
      rw [l1ImageStep, if_neg (by simp [hmt])]
      rw [l1VideoStep]
      split_ifs
      · simp only [List.nil_append]
        exact analyzeVideo_ok _ _ _ _ _ _ _ _
      · exact SignalSet.nil _
  | audio =>
      rw [l1VideoStep, if_neg (by simp [hmt]), l1ImageStep,
        if_neg (by simp [hmt])]
      exact SignalSet.nil _
  | unknown =>
      rw [l1VideoStep, if_neg (by simp [hmt]), l1ImageStep,
        if_neg (by simp [hmt])]
      exact SignalSet.nil _

theorem pipelineLevel2_signals (route : MediaRoute) (env : PipelineEnv)
    (st : PipeState) (h : SignalSet imageVideoIds st.signals) :
    SignalSet (imageVideoIds ++ audioIds)
      (pipelineLevel2 route env st).signals := by
  rw [pipelineLevel2]
  split_ifs
  · have hesc : ∀ s : PipeState, (l2Escalation env s).signals = s.signals := by
      intro s
      simp only [l2Escalation]
      split_ifs <;> rfl
    have himg : SignalSet imageVideoIds (l2ImageStep route env st).signals := by
      rw [l2ImageStep]
      split_ifs
      · exact mergeSignals_ok _ _ h (analyzeImage_ok _ _ _ _ _ _).2
      · exact h
    have hvid : SignalSet imageVideoIds
        (l2VideoStep route env (l2ImageStep route env st)).signals := by
      rw [l2VideoStep]
      split_ifs <;>
        first
          | exact mergeSignals_ok _ _ himg (analyzeVideo_ok _ _ _ _ _ _ _ _).2
          | exact himg
    rw [hesc, l2AudioStep]
    split_ifs
    · exact hvid.append (analyzeAudio_ok _) (by decide)
    · exact hvid.mono (List.subset_append_left _ _)
  · exact h.mono (List.subset_append_left _ _)

theorem pipelineLevel3_signals (route : MediaRoute) (env : PipelineEnv)
    (st : PipeState)
    (h : SignalSet (imageVideoIds ++ audioIds) st.signals) :
    SignalSet ((imageVideoIds ++ audioIds) ++ ["cusum-changepoints"])
      ((pipelineLevel3 route env st).1).signals := by
  rw [pipelineLevel3]
  split_ifs
  · have hvid : SignalSet (imageVideoIds ++ audioIds)
        (l3VideoStep route env st).signals := by
      rw [l3VideoStep]
      split_ifs
      · exact mergeSignals_ok _ _ h
          ((analyzeVideo_ok _ _ _ _ _ _ _ _).2.trans
            (List.subset_append_left _ _))
      · exact h
    simp only [l3Cusum]
    split_ifs <;>
      first
        | exact hvid.append ⟨List.nodup_singleton _, by simp⟩ (by decide)
        | exact hvid.mono (List.subset_append_left _ _)
  · exact h.mono (List.subset_append_left _ _)

/-- C8. The signal identifiers in the analysis result returned by
`runPipeline` are pairwise distinct, over every media-type path and every
level combination. -/
theorem runPipeline_signal_ids_nodup (route : MediaRoute) (env : PipelineEnv) :
    ((runPipeline route env).signals.map (·.id)).Nodup := by
  simp only [runPipeline]
  exact (pipelineLevel3_signals _ _ _
    (pipelineLevel2_signals _ _ _ (pipelineLevel1_signals _ _))).1

/-- Witness for C5: probability 0.97, stability counter 3, at each of the
three levels and for both outcomes of the randomized draw. -/
theorem evaluateEscalation_early_exit_witness :
    ((evaluateEscalation .level1_lightweight 0.5 0.97
        ⟨none, none, none, none, none, none, none, none⟩ 3 true).shouldEscalate
        = false ∧
      (evaluateEscalation .level1_lightweight 0.5 0.97
        ⟨none, none, none, none, none, none, none, none⟩ 3 true).earlyExit
        = true)
    ∧ ((evaluateEscalation .level3_temporal_crossmodal 0.5 0.97
        ⟨none, none, none, none, none, none, none, none⟩ 4 false).shouldEscalate
        = false ∧
      (evaluateEscalation .level3_temporal_crossmodal 0.5 0.97
        ⟨none, none, none, none, none, none, none, none⟩ 4 false).earlyExit
        = true) :=
  ⟨evaluateEscalation_early_exit _ _ _ _ _ _ (Or.inl (by norm_num)) (by norm_num),
   evaluateEscalation_early_exit _ _ _ _ _ _ (Or.inl (by norm_num)) (by norm_num)⟩

/-! ## Spectral core: correctness of the bit-reversal permutation -/

theorem and_two_pow_eq_zero {r m : ℕ} (h : r < 2 ^ m) : r &&& 2 ^ m = 0 := by
  apply Nat.eq_of_testBit_eq
  intro i
  simp only [Nat.testBit_and, Nat.zero_testBit]
  by_cases him : m = i
  · subst him
    rw [Nat.testBit_lt_two_pow h]
    simp
  · rw [Nat.testBit_two_pow_of_ne him]
    simp

theorem add_two_pow_and_ne {r m : ℕ} (h : r < 2 ^ m) :
    (2 ^ m + r) &&& 2 ^ m ≠ 0 := by
  intro h0
  have h1 := congrArg (fun x => Nat.testBit x m) h0
  simp only [Nat.testBit_and, Nat.testBit_two_pow_self, Bool.and_true,
    Nat.zero_testBit] at h1
  rw [Nat.testBit_two_pow_add_eq, Nat.testBit_lt_two_pow h] at h1
  simp at h1

theorem xor_two_pow_add {r m : ℕ} (h : r < 2 ^ m) :
    r ^^^ 2 ^ m = 2 ^ m + r := by
  apply Nat.eq_of_testBit_eq
  intro i
  simp only [Nat.testBit_xor]
  rcases lt_trichotomy i m with him | rfl | him
  · rw [Nat.testBit_two_pow_of_ne (by omega), Nat.testBit_two_pow_add_gt him]
    simp
  · rw [Nat.testBit_two_pow_self, Nat.testBit_two_pow_add_eq,
      Nat.testBit_lt_two_pow h]
    simp
  · have hri : r < 2 ^ i := lt_of_lt_of_le h
      (Nat.pow_le_pow_right (by norm_num) (by omega))
    have hai : 2 ^ m + r < 2 ^ i := by
      have : 2 ^ m + r < 2 ^ (m + 1) := by
        have := h
        rw [pow_succ]
        omega
      exact lt_of_lt_of_le this (Nat.pow_le_pow_right (by norm_num) (by omega))
    rw [Nat.testBit_two_pow_of_ne (by omega), Nat.testBit_lt_two_pow hri,
      Nat.testBit_lt_two_pow hai]
    rfl

theorem add_two_pow_xor {r m : ℕ} (h : r < 2 ^ m) :
    (2 ^ m + r) ^^^ 2 ^ m = r := by
  rw [← xor_two_pow_add h, Nat.xor_assoc, Nat.xor_self, Nat.xor_zero]

theorem bitrev_zero (m : ℕ) : bitrev m 0 = 0 := by
  induction m with
  | zero => rfl
  | succ m ih => simp [bitrev, ih]

theorem bitrev_lt (m i : ℕ) : bitrev m i < 2 ^ m := by
  induction m generalizing i with
  | zero => simp [bitrev]
  | succ m ih =>
      have h2 : i % 2 ≤ 1 := by omega
      have hb := ih (i / 2)
      have hp : (2 : ℕ) ^ (m + 1) = 2 ^ m + 2 ^ m := by ring
      have hm : i % 2 * 2 ^ m ≤ 2 ^ m := by
        calc i % 2 * 2 ^ m ≤ 1 * 2 ^ m := Nat.mul_le_mul_right _ h2
          _ = 2 ^ m := one_mul _
      have : bitrev (m + 1) i = i % 2 * 2 ^ m + bitrev m (i / 2) := rfl
      omega

theorem bitrev_two_mul (m q : ℕ) : bitrev (m + 1) (2 * q) = bitrev m q := by
  have h1 : (2 * q) % 2 = 0 := Nat.mul_mod_right 2 q
  have h2 : (2 * q) / 2 = q := Nat.mul_div_cancel_left q (by norm_num)
  simp [bitrev, h1, h2]

theorem bitrev_two_mul_add_one (m q : ℕ) :
    bitrev (m + 1) (2 * q + 1) = 2 ^ m + bitrev m q := by
  have h1 : (2 * q + 1) % 2 = 1 := by omega
  have h2 : (2 * q + 1) / 2 = q := by omega
  simp [bitrev, h1, h2]

theorem bitrev_succ_high (m : ℕ) :
    ∀ i, i < 2 ^ (m + 1) →
      bitrev (m + 1) i = 2 * bitrev m (i % 2 ^ m) + i / 2 ^ m := by
  induction m with
  | zero =>
      intro i hi
      interval_cases i <;> decide
  | succ m ih =>
      intro i hi
      have hdiv2 : i / 2 < 2 ^ (m + 1) := by
        rw [Nat.div_lt_iff_lt_mul (by norm_num)]
        calc i < 2 ^ (m + 2) := hi
          _ = 2 ^ (m + 1) * 2 := by ring
      have h1 : bitrev (m + 2) i = i % 2 * 2 ^ (m + 1) + bitrev (m + 1) (i / 2) :=
        rfl
      rw [h1, ih (i / 2) hdiv2]
      have h3 : bitrev (m + 1) (i % 2 ^ (m + 1)) =
          (i % 2 ^ (m + 1)) % 2 * 2 ^ m + bitrev m ((i % 2 ^ (m + 1)) / 2) := rfl
      rw [h3]
      have e1 : (i % 2 ^ (m + 1)) % 2 = i % 2 :=
        Nat.mod_mod_of_dvd i ⟨2 ^ m, by ring⟩
      have e2 : (i % 2 ^ (m + 1)) / 2 = (i / 2) % 2 ^ m := by
        have : (2 : ℕ) ^ (m + 1) = 2 * 2 ^ m := by ring
        rw [this, Nat.mod_mul_right_div_self]
      have e3 : (i / 2) / 2 ^ m = i / 2 ^ (m + 1) := by
        rw [Nat.div_div_eq_div_mul]
        congr 1
        ring
      rw [e1, e2, e3]
      ring

theorem bitrev_bitrev (m : ℕ) : ∀ i, i < 2 ^ m → bitrev m (bitrev m i) = i := by
  induction m with
  | zero =>
      intro i hi
      have : i = 0 := by omega
      subst this
      rfl
  | succ m ih =>
      intro i hi
      have hb := bitrev_lt m (i / 2)
      have h2 : i % 2 ≤ 1 := by omega
      have hlow : bitrev (m + 1) i = i % 2 * 2 ^ m + bitrev m (i / 2) := rfl
      have hlt : i % 2 * 2 ^ m + bitrev m (i / 2) < 2 ^ (m + 1) := by
        have hp : (2 : ℕ) ^ (m + 1) = 2 ^ m + 2 ^ m := by ring
        have hm2 : i % 2 * 2 ^ m ≤ 2 ^ m := by
          calc i % 2 * 2 ^ m ≤ 1 * 2 ^ m := Nat.mul_le_mul_right _ h2
            _ = 2 ^ m := one_mul _
        omega
      rw [hlow, bitrev_succ_high m _ hlt]
      have e1 : (i % 2 * 2 ^ m + bitrev m (i / 2)) % 2 ^ m = bitrev m (i / 2) := by
        rw [Nat.mul_comm (i % 2) (2 ^ m), Nat.mul_add_mod, Nat.mod_eq_of_lt hb]
      have e2 : (i % 2 * 2 ^ m + bitrev m (i / 2)) / 2 ^ m = i % 2 := by
        rw [Nat.mul_comm (i % 2), Nat.mul_add_div (Nat.pos_pow_of_pos m (by norm_num)),
          Nat.div_eq_of_lt hb, Nat.add_zero]
      have hdiv : i / 2 < 2 ^ m := by
        rw [Nat.div_lt_iff_lt_mul (by norm_num)]
        calc i < 2 ^ (m + 1) := hi
          _ = 2 ^ m * 2 := by ring
      rw [e1, e2, ih (i / 2) hdiv]
      omega

theorem bitrev_injOn (m : ℕ) {i j : ℕ} (hi : i < 2 ^ m) (hj : j < 2 ^ m)
    (h : bitrev m i = bitrev m j) : i = j := by
  have := congrArg (bitrev m) h
  rwa [bitrev_bitrev m i hi, bitrev_bitrev m j hj] at this

theorem revInc_bitrev :
    ∀ m, ∀ i, i + 1 < 2 ^ (m + 1) →
      revInc (bitrev (m + 1) i) (2 ^ m) = bitrev (m + 1) (i + 1) := by
  intro m
  induction m with
  | zero =>
      intro i hi
      have h0 : i = 0 := by omega
      subst h0
      rw [show bitrev 1 0 = 0 from rfl, revInc]
      norm_num
      rfl
  | succ m ih =>
      intro i hi
      rcases Nat.even_or_odd i with he | ho
      · obtain ⟨q, hq⟩ := he
        have hq2 : i = 2 * q := by omega
        subst hq2
        have hblt := bitrev_lt (m + 1) q
        rw [bitrev_two_mul, revInc,
          dif_neg (by simp [and_two_pow_eq_zero hblt]),
          xor_two_pow_add hblt, show 2 * q + 1 = 2 * q + 1 from rfl,
          bitrev_two_mul_add_one]
      · obtain ⟨q, hq⟩ := ho
        subst hq
        have hblt := bitrev_lt (m + 1) q
        have hq1 : q + 1 < 2 ^ (m + 1) := by
          have h2 : (2 : ℕ) ^ (m + 2) = 2 * 2 ^ (m + 1) := by ring
          omega
        rw [bitrev_two_mul_add_one, revInc,
          dif_pos (add_two_pow_and_ne hblt), add_two_pow_xor hblt,
          show (2 : ℕ) ^ (m + 1) / 2 = 2 ^ m by
            rw [pow_succ, Nat.mul_div_cancel _ (by norm_num)],
          ih q hq1, show 2 * q + 1 + 1 = 2 * (q + 1) from rfl, bitrev_two_mul]

theorem bitrevLoop_inv (m : ℕ) (a : ℕ → ℂ) :
    ∀ c, c < 2 ^ (m + 1) →
      ((List.range' 1 c).foldl (bitrevStep (2 ^ (m + 1))) (0, a)).1 =
          bitrev (m + 1) c ∧
        ∀ k, k < 2 ^ (m + 1) →
          ((List.range' 1 c).foldl (bitrevStep (2 ^ (m + 1))) (0, a)).2 k =
            if min k (bitrev (m + 1) k) ≤ c then a (bitrev (m + 1) k) else a k := by
  intro c
  induction c with
  | zero =>
      intro _
      refine ⟨(bitrev_zero (m + 1)).symm, fun k hk => ?_⟩
      simp only [List.range', List.foldl_nil]
      by_cases hc : min k (bitrev (m + 1) k) ≤ 0
      · have hk0 : k = 0 := by
          rcases Nat.min_eq_zero_iff.mp (Nat.le_zero.mp hc) with h | h
          · exact h
          · have := bitrev_injOn (m + 1) hk
              (Nat.pos_pow_of_pos (m + 1) (by norm_num))
              (by rw [h, bitrev_zero])
            exact this
        subst hk0
        rw [if_pos hc, bitrev_zero]
      · rw [if_neg hc]
  | succ c ihc =>
      intro hc1
      have hc : c < 2 ^ (m + 1) := by omega
      obtain ⟨ih1, ih2⟩ := ihc hc
      have hrange : List.range' 1 (c + 1) = List.range' 1 c ++ [c + 1] := by
        rw [List.range'_concat, one_mul, Nat.add_comm 1 c]
      have hdiv : (2 : ℕ) ^ (m + 1) / 2 = 2 ^ m := by
        rw [pow_succ, Nat.mul_div_cancel _ (by norm_num)]
      rw [hrange, List.foldl_append]
      simp only [List.foldl_cons, List.foldl_nil, bitrevStep]
      rw [ih1, hdiv, revInc_bitrev m c hc1]
      refine ⟨rfl, fun k hk => ?_⟩
      have hrlt : bitrev (m + 1) (c + 1) < 2 ^ (m + 1) := bitrev_lt (m + 1) (c + 1)
      have hrr : bitrev (m + 1) (bitrev (m + 1) (c + 1)) = c + 1 :=
        bitrev_bitrev (m + 1) (c + 1) hc1
      have hkk : bitrev (m + 1) (bitrev (m + 1) k) = k := bitrev_bitrev (m + 1) k hk
      have hinj : bitrev (m + 1) k = c + 1 → k = bitrev (m + 1) (c + 1) := fun h => by
        rw [← hkk, h]
      by_cases hswap : c + 1 < bitrev (m + 1) (c + 1)
      · rw [if_pos hswap]
        simp only [swapF]
        by_cases hk1 : k = c + 1
        · subst hk1
          rw [if_pos rfl, ih2 _ hrlt, hrr]
          rw [if_neg (by omega), if_pos (by omega)]
        · rw [if_neg hk1]
          by_cases hk2 : k = bitrev (m + 1) (c + 1)
          · rw [if_pos hk2, ih2 _ hc1]
            subst hk2
            rw [hrr, if_neg (by omega), if_pos (by omega)]
          · rw [if_neg hk2, ih2 k hk]
            have hne : min k (bitrev (m + 1) k) ≠ c + 1 := fun hmin => by
              rcases le_total k (bitrev (m + 1) k) with hle | hle
              · rw [min_eq_left hle] at hmin
                exact hk1 hmin
              · rw [min_eq_right hle] at hmin
                exact hk2 (hinj hmin)
            by_cases hcnd : min k (bitrev (m + 1) k) ≤ c
            · rw [if_pos hcnd, if_pos (by omega)]
            · rw [if_neg hcnd, if_neg (by omega)]
      · rw [if_neg hswap, ih2 k hk]
        by_cases hcnd : min k (bitrev (m + 1) k) ≤ c
        · rw [if_pos hcnd, if_pos (by omega)]
        · by_cases hcnd1 : min k (bitrev (m + 1) k) ≤ c + 1
          · have heq : min k (bitrev (m + 1) k) = c + 1 := by omega
            have hkor : k = c + 1 ∨ bitrev (m + 1) k = c + 1 := by
              rcases le_total k (bitrev (m + 1) k) with hle | hle
              · left
                rw [min_eq_left hle] at heq
                exact heq
              · right
                rw [min_eq_right hle] at heq
                exact heq
            rcases hkor with hk1 | hk1
            · subst hk1
              have hfix : bitrev (m + 1) (c + 1) = c + 1 := by omega
              rw [if_neg hcnd, if_pos hcnd1, hfix]
            · have hkeq : k = c + 1 := by
                rw [hk1] at heq
                omega
              subst hkeq
              rw [if_neg hcnd, if_pos hcnd1, hk1]
          · rw [if_neg hcnd, if_neg hcnd1]

theorem bitrevPermute_eq (m : ℕ) (a : ℕ → ℂ) :
    ∀ k, k < 2 ^ m → bitrevPermute (2 ^ m) a k = a (bitrev m k) := by
  cases m with
  | zero =>
      intro k hk
      have hk0 : k = 0 := by omega
      subst hk0
      rfl
  | succ m =>
      intro k hk
      have hpos : 0 < 2 ^ (m + 1) := Nat.pos_pow_of_pos (m + 1) (by norm_num)
      have h := (bitrevLoop_inv m a (2 ^ (m + 1) - 1) (by omega)).2 k hk
      rw [bitrevPermute, h, if_pos (by omega)]

theorem fftW_pow (N k : ℕ) :
    fftW N ^ k = Complex.exp (-(2 * (Real.pi : ℂ)) * Complex.I * k / N) := by
  rw [fftW, ← Complex.exp_nat_mul]
  congr 1
  ring

theorem fftW_sq (L : ℕ) (hL : 0 < L) : fftW (2 * L) ^ 2 = fftW L := by
  have hLc : (L : ℂ) ≠ 0 := Nat.cast_ne_zero.mpr hL.ne'
  rw [fftW_pow, fftW]
  congr 1
  push_cast
  field_simp
  ring

theorem fftW_pow_half (L : ℕ) (hL : 0 < L) : fftW (2 * L) ^ L = -1 := by
  have hLc : (L : ℂ) ≠ 0 := Nat.cast_ne_zero.mpr hL.ne'
  rw [fftW_pow,
    show -(2 * (Real.pi : ℂ)) * Complex.I * (L : ℕ) / ((2 * L : ℕ) : ℂ)
        = -((Real.pi : ℂ) * Complex.I) from by
      push_cast
      field_simp
      ring,
    Complex.exp_neg, Complex.exp_pi_mul_I]
  norm_num

theorem sum_range_even_odd (N : ℕ) (f : ℕ → ℂ) :
    ∑ t ∈ Finset.range (2 * N), f t =
      (∑ u ∈ Finset.range N, f (2 * u)) + ∑ u ∈ Finset.range N, f (2 * u + 1) := by
  induction N with
  | zero => simp
  | succ N ih =>
      rw [show 2 * (N + 1) = 2 * N + 1 + 1 from by ring, Finset.sum_range_succ,
        Finset.sum_range_succ, Finset.sum_range_succ, Finset.sum_range_succ, ih]
      ring

theorem fftPasses_inv (m : ℕ) (a g : ℕ → ℂ)
    (hg : ∀ i, i < 2 ^ m → g i = a (bitrev m i)) :
    ∀ s, s ≤ m → ∀ idx, idx < 2 ^ m →
      fftPasses s g idx =
        ∑ t ∈ Finset.range (2 ^ s),
          a (t * 2 ^ (m - s) + bitrev (m - s) (idx / 2 ^ s)) *
            fftW (2 ^ s) ^ (idx % 2 ^ s * t) := by
  intro s
  induction s with
  | zero =>
      intro _ idx hidx
      rw [show fftPasses 0 g idx = g idx from rfl, hg idx hidx]
      norm_num
  | succ s ih =>
      intro hs idx hidx
      have hs' : s ≤ m := Nat.le_of_succ_le hs
      have hLpos : 0 < 2 ^ s := Nat.pos_pow_of_pos s (by norm_num)
      have hps : (2 : ℕ) ^ (s + 1) = 2 * 2 ^ s := by ring
      have hM : m - s = m - (s + 1) + 1 := by omega
      have hsq : fftW (2 ^ (s + 1)) ^ 2 = fftW (2 ^ s) := by
        rw [hps]
        exact fftW_sq (2 ^ s) hLpos
      have hhalf : fftW (2 ^ (s + 1)) ^ 2 ^ s = -1 := by
        rw [hps]
        exact fftW_pow_half (2 ^ s) hLpos
      obtain ⟨q, r, hr2L, hidxeq⟩ :
          ∃ q r, r < 2 ^ (s + 1) ∧ idx = 2 ^ (s + 1) * q + r :=
        ⟨idx / 2 ^ (s + 1), idx % 2 ^ (s + 1),
          Nat.mod_lt _ (Nat.pos_pow_of_pos _ (by norm_num)),
          (Nat.div_add_mod idx (2 ^ (s + 1))).symm⟩
      subst hidxeq
      have hre : (2 ^ (s + 1) * q + r) % 2 ^ (s + 1) = r := by
        rw [Nat.mul_add_mod, Nat.mod_eq_of_lt hr2L]
      have hqe : (2 ^ (s + 1) * q + r) / 2 ^ (s + 1) = q := by
        rw [Nat.mul_add_div (Nat.pos_pow_of_pos _ (by norm_num)),
          Nat.div_eq_of_lt hr2L, Nat.add_zero]
      simp only [fftPasses, stageUpdate]
      rw [← hps, hre, hqe]
      by_cases hcase : r < 2 ^ s
      · rw [if_pos hcase]
        have hdivA : (2 ^ (s + 1) * q + r) / 2 ^ s = 2 * q := by
          rw [show (2 : ℕ) ^ (s + 1) * q + r = 2 ^ s * (2 * q) + r from by ring,
            Nat.mul_add_div hLpos, Nat.div_eq_of_lt hcase, Nat.add_zero]
        have hmodA : (2 ^ (s + 1) * q + r) % 2 ^ s = r := by
          rw [show (2 : ℕ) ^ (s + 1) * q + r = 2 ^ s * (2 * q) + r from by ring,
            Nat.mul_add_mod, Nat.mod_eq_of_lt hcase]
        have hdivA' : (2 ^ (s + 1) * q + r + 2 ^ s) / 2 ^ s = 2 * q + 1 := by
          rw [show (2 : ℕ) ^ (s + 1) * q + r + 2 ^ s = 2 ^ s * (2 * q + 1) + r
              from by ring,
            Nat.mul_add_div hLpos, Nat.div_eq_of_lt hcase, Nat.add_zero]
        have hmodA' : (2 ^ (s + 1) * q + r + 2 ^ s) % 2 ^ s = r := by
          rw [show (2 : ℕ) ^ (s + 1) * q + r + 2 ^ s = 2 ^ s * (2 * q + 1) + r
              from by ring,
            Nat.mul_add_mod, Nat.mod_eq_of_lt hcase]
        have hq1 : q + 1 ≤ 2 ^ (m - (s + 1)) := by
          by_contra hq'
          push_neg at hq'
          have h2 : (2 : ℕ) ^ (s + 1) * 2 ^ (m - (s + 1)) = 2 ^ m := by
            rw [← pow_add]
            congr 1
            omega
          have h3 : (2 : ℕ) ^ (s + 1) * 2 ^ (m - (s + 1)) ≤ 2 ^ (s + 1) * q :=
            Nat.mul_le_mul_left _ (by omega)
          omega
        have hboundA : 2 ^ (s + 1) * q + r + 2 ^ s < 2 ^ m := by
          have h2 : (2 : ℕ) ^ (s + 1) * 2 ^ (m - (s + 1)) = 2 ^ m := by
            rw [← pow_add]
            congr 1
            omega
          have h3 : (2 : ℕ) ^ (s + 1) * (q + 1) ≤ 2 ^ (s + 1) * 2 ^ (m - (s + 1)) :=
            Nat.mul_le_mul_left _ hq1
          rw [Nat.mul_succ] at h3
          omega
        rw [ih hs' _ hidx, ih hs' _ hboundA, hdivA, hmodA, hdivA', hmodA', hM,
          bitrev_two_mul, bitrev_two_mul_add_one,
          show Finset.range ((2 : ℕ) ^ (s + 1)) = Finset.range (2 * 2 ^ s) from by
            rw [hps],
          sum_range_even_odd, Finset.mul_sum]
        congr 1
        · refine Finset.sum_congr rfl fun u _ => ?_
          have h1 : 2 * u * 2 ^ (m - (s + 1)) + bitrev (m - (s + 1)) q
              = u * 2 ^ (m - (s + 1) + 1) + bitrev (m - (s + 1)) q := by ring
          have h2 : fftW (2 ^ (s + 1)) ^ (r * (2 * u)) = fftW (2 ^ s) ^ (r * u) := by
            rw [show r * (2 * u) = 2 * (r * u) from by ring, pow_mul, hsq]
          rw [h1, h2]
        · refine Finset.sum_congr rfl fun u _ => ?_
          have h1 : (2 * u + 1) * 2 ^ (m - (s + 1)) + bitrev (m - (s + 1)) q
              = u * 2 ^ (m - (s + 1) + 1)
                  + (2 ^ (m - (s + 1)) + bitrev (m - (s + 1)) q) := by ring
          have h2 : fftW (2 ^ (s + 1)) ^ (r * (2 * u + 1))
              = fftW (2 ^ s) ^ (r * u) * fftW (2 ^ (s + 1)) ^ r := by
            rw [show r * (2 * u + 1) = 2 * (r * u) + r from by ring, pow_add,
              pow_mul, hsq]
          rw [h1, h2]
          ring
      · rw [if_neg hcase]
        push_neg at hcase
        obtain ⟨d, rfl⟩ : ∃ d, r = 2 ^ s + d := ⟨r - 2 ^ s, by omega⟩
        have hXY : (2 : ℕ) ^ (s + 1) * q = 2 ^ s * (2 * q) := by ring
        have hsub : 2 ^ (s + 1) * q + (2 ^ s + d) - 2 ^ s = 2 ^ s * (2 * q) + d := by
          omega
        have hdlt : d < 2 ^ s := by omega
        have hdivB : (2 ^ s * (2 * q) + d) / 2 ^ s = 2 * q := by
          rw [Nat.mul_add_div hLpos, Nat.div_eq_of_lt hdlt, Nat.add_zero]
        have hmodB : (2 ^ s * (2 * q) + d) % 2 ^ s = d := by
          rw [Nat.mul_add_mod, Nat.mod_eq_of_lt hdlt]
        have hdivB' : (2 ^ (s + 1) * q + (2 ^ s + d)) / 2 ^ s = 2 * q + 1 := by
          rw [show (2 : ℕ) ^ (s + 1) * q + (2 ^ s + d) = 2 ^ s * (2 * q + 1) + d
              from by ring,
            Nat.mul_add_div hLpos, Nat.div_eq_of_lt hdlt, Nat.add_zero]
        have hmodB' : (2 ^ (s + 1) * q + (2 ^ s + d)) % 2 ^ s = d := by
          rw [show (2 : ℕ) ^ (s + 1) * q + (2 ^ s + d) = 2 ^ s * (2 * q + 1) + d
              from by ring,
            Nat.mul_add_mod, Nat.mod_eq_of_lt hdlt]
        have hsubles : 2 ^ s * (2 * q) + d < 2 ^ m := by omega
        rw [Nat.add_sub_cancel_left, hsub, ih hs' _ hsubles, ih hs' _ hidx,
          hdivB, hmodB, hdivB', hmodB', hM, bitrev_two_mul, bitrev_two_mul_add_one,
          show Finset.range ((2 : ℕ) ^ (s + 1)) = Finset.range (2 * 2 ^ s) from by
            rw [hps],
          sum_range_even_odd, sub_eq_add_neg, Finset.mul_sum,
          ← Finset.sum_neg_distrib]
        congr 1
        · refine Finset.sum_congr rfl fun u _ => ?_
          have h1 : 2 * u * 2 ^ (m - (s + 1)) + bitrev (m - (s + 1)) q
              = u * 2 ^ (m - (s + 1) + 1) + bitrev (m - (s + 1)) q := by ring
          have h2 : fftW (2 ^ (s + 1)) ^ ((2 ^ s + d) * (2 * u))
              = fftW (2 ^ s) ^ (d * u) := by
            rw [show (2 ^ s + d) * (2 * u) = 2 ^ s * (2 * u) + 2 * (d * u)
                from by ring,
              pow_add,
              show fftW (2 ^ (s + 1)) ^ (2 ^ s * (2 * u)) = 1 from by
                rw [pow_mul, hhalf, Even.neg_one_pow ⟨u, two_mul u⟩],
              one_mul, pow_mul, hsq]
          rw [h1, h2]
        · refine Finset.sum_congr rfl fun u _ => ?_
          have h1 : (2 * u + 1) * 2 ^ (m - (s + 1)) + bitrev (m - (s + 1)) q
              = u * 2 ^ (m - (s + 1) + 1)
                  + (2 ^ (m - (s + 1)) + bitrev (m - (s + 1)) q) := by ring
          have h2 : fftW (2 ^ (s + 1)) ^ ((2 ^ s + d) * (2 * u + 1))
              = -(fftW (2 ^ s) ^ (d * u) * fftW (2 ^ (s + 1)) ^ d) := by
            rw [show (2 ^ s + d) * (2 * u + 1)
                  = 2 ^ s * (2 * u) + (2 ^ s + (2 * (d * u) + d)) from by ring,
              pow_add,
              show fftW (2 ^ (s + 1)) ^ (2 ^ s * (2 * u)) = 1 from by
                rw [pow_mul, hhalf, Even.neg_one_pow ⟨u, two_mul u⟩],
              one_mul, pow_add, hhalf, pow_add, pow_mul, hsq, neg_one_mul]
          rw [h1, h2]
          ring

theorem fft1d_eq_dft (m : ℕ) (a : ℕ → ℂ) (k : ℕ) (hk : k < 2 ^ m) :
    fft1d m a k = dft (2 ^ m) a k := by
  rw [fft1d,
    fftPasses_inv m a (bitrevPermute (2 ^ m) a) (bitrevPermute_eq m a) m
      le_rfl k hk,
    dft]
  refine Finset.sum_congr rfl fun t ht => ?_
  rw [Nat.sub_self, pow_zero, Nat.mul_one,
    show bitrev 0 (k / 2 ^ m) = 0 from rfl, Nat.add_zero, Nat.mod_eq_of_lt hk]

theorem invDft_dft (N : ℕ) (hN : 0 < N) (x : ℕ → ℂ) (t : ℕ) (ht : t < N) :
    invDft N (dft N x) t = x t := by
  have hNc : (N : ℂ) ≠ 0 := Nat.cast_ne_zero.mpr hN.ne'
  have expand : ∀ k, dft N x k * Complex.exp (2 * Real.pi * Complex.I * k * t / N)
      = ∑ s ∈ Finset.range N,
          x s * Complex.exp (2 * Real.pi * Complex.I * ((t : ℂ) - (s : ℂ)) / N) ^ k := by
    intro k
    rw [dft, Finset.sum_mul]
    refine Finset.sum_congr rfl fun s _ => ?_
    rw [fftW, ← Complex.exp_nat_mul, ← Complex.exp_nat_mul, mul_assoc,
      ← Complex.exp_add]
    congr 2
    push_cast
    field_simp
    ring
  have hz : ∀ s, s < N → s ≠ t →
      ∑ k ∈ Finset.range N,
        Complex.exp (2 * Real.pi * Complex.I * ((t : ℂ) - (s : ℂ)) / N) ^ k = 0 := by
    intro s hs hst
    have hzN : Complex.exp (2 * Real.pi * Complex.I * ((t : ℂ) - (s : ℂ)) / N) ^ N
        = 1 := by
      rw [← Complex.exp_nat_mul,
        show (N : ℂ) * (2 * Real.pi * Complex.I * ((t : ℂ) - (s : ℂ)) / N)
            = (((t : ℤ) - (s : ℤ) : ℤ) : ℂ) * (2 * Real.pi * Complex.I) from by
          push_cast
          field_simp
          ring]
      exact Complex.exp_int_mul_two_pi_mul_I _
    have hz1 : Complex.exp (2 * Real.pi * Complex.I * ((t : ℂ) - (s : ℂ)) / N) ≠ 1 := by
      intro h1
      rw [Complex.exp_eq_one_iff] at h1
      obtain ⟨n, hn⟩ := h1
      have h2pI : (2 * (Real.pi : ℂ) * Complex.I) ≠ 0 :=
        mul_ne_zero (mul_ne_zero two_ne_zero
          (Complex.ofReal_ne_zero.mpr Real.pi_ne_zero)) Complex.I_ne_zero
      have heq : (t : ℂ) - (s : ℂ) = n * N := by
        field_simp at hn
        apply mul_left_cancel₀ h2pI
        linear_combination hn
      have heqz : (t : ℤ) - (s : ℤ) = n * N := by exact_mod_cast heq
      have habs : |(t : ℤ) - (s : ℤ)| < N := by
        rw [abs_sub_lt_iff]
        constructor <;> omega
      have hn0 : n ≠ 0 := by
        intro h0
        rw [h0, zero_mul] at heqz
        omega
      have habs2 : (N : ℤ) ≤ |(t : ℤ) - (s : ℤ)| := by
        rw [heqz, abs_mul]
        calc (N : ℤ) = 1 * (N : ℤ) := (one_mul _).symm
          _ ≤ |n| * |(N : ℤ)| :=
              mul_le_mul (Int.one_le_abs hn0) (le_abs_self _) (by positivity)
                (by positivity)
      linarith
    rw [geom_sum_eq hz1, hzN, sub_self, zero_div]
  rw [invDft]
  simp only [expand]
  rw [Finset.sum_comm]
  simp only [← Finset.mul_sum]
  rw [Finset.sum_eq_single_of_mem t (Finset.mem_range.mpr ht)
    (fun s hs hst => by rw [hz s (Finset.mem_range.mp hs) hst, mul_zero]),
    sub_self, mul_zero, zero_div, Complex.exp_zero]
  simp only [one_pow]
  rw [Finset.sum_const, Finset.card_range, nsmul_eq_mul, mul_one,
    mul_div_assoc, div_self hNc, mul_one]

/-- C3: round-trip law of the Spectral Core. For every real-valued input
sequence of power-of-two length `2^m`, the forward transform `fft1d`
followed by the inverse discrete Fourier transform reproduces the original
sequence (exactly, in the exact-arithmetic idealisation of the
floating-point computation; "within floating-point tolerance" is the
float shadow of this identity). Proved via `fft1d = dft` (correctness of
the bit-reversal permutation and of the `m` butterfly passes) and the
inversion formula for the DFT. -/
theorem fft1d_roundtrip (m : ℕ) (x : ℕ → ℝ) (t : ℕ) (ht : t < 2 ^ m) :
    invDft (2 ^ m) (fft1d m (fun i => ((x i : ℝ) : ℂ))) t = ((x t : ℝ) : ℂ) := by
  have hstep : invDft (2 ^ m) (fft1d m (fun i => ((x i : ℝ) : ℂ))) t
      = invDft (2 ^ m) (dft (2 ^ m) (fun i => ((x i : ℝ) : ℂ))) t := by
    rw [invDft, invDft]
    congr 1
    refine Finset.sum_congr rfl fun k hk => ?_
    rw [fft1d_eq_dft m _ k (Finset.mem_range.mp hk)]
  rw [hstep,
    invDft_dft (2 ^ m) (Nat.pos_pow_of_pos m (by norm_num)) _ t ht]

theorem fft1d_roundtrip_witness :
    1 < 2 ^ 1 ∧
      invDft (2 ^ 1) (fft1d 1 (fun i => ((i : ℝ) : ℂ))) 1 = (((1 : ℕ) : ℝ) : ℂ) :=
  ⟨by norm_num, fft1d_roundtrip 1 (fun i => (i : ℝ)) 1 (by norm_num)⟩

end RealityFirewall
